import Mathlib

/-!
The program mc2bsbh: MapCal calibration records to BSB chart headers.

A shallow embedding of `mc2bsbh.cpp` and the properties of its record buffer
and section transcoder.

Modelling conventions

* A `std::string` is a list of characters (`Str`).
* The source stores `std::string` positions in `unsigned int` and compares them
  with `string::npos`; this presupposes that `size_t` and `unsigned int` have the
  same width (32 bits).  A position is a `Nat`, `string::npos` is `none`.
  `long int` is 32 bits wide as well.
* A finite `double` is the rational number it denotes (`ℚ`).  The C library
  function `strtod` is a parameter of every definition that parses a number; NaN
  and the infinities are not among the values it returns.
* The derivation of `du` (`calc_du`) computes in IEEE 754 binary64 (`fp`): every
  operation is rounded to the nearest double, ties to even, with signed zeros,
  infinities and NaN, and no intermediate result is kept in a wider format.  The
  other operations on doubles (`lon - 360`, the sign of `maxlon * minlon`, the
  factor 3600 of the datum shift) are the exact ones.
* What `operator<<` inserts into the output file is kept as a token (`Tok`), so
  that no number formatting has to be modelled; a line is the list of tokens
  inserted before `endl`.
* A loop of the source whose number of iterations is not fixed is a recursion
  on an iteration bound taken from the data (the length of the text scanned, the
  number of lines of the buffer, plus one); a loop that reached its bound would
  return `Err.fuel`, and `convert_section_no_fuel` shows that none does.
* A C++ exception that nobody catches (`std::out_of_range`) and undefined
  behaviour (conversion of an unrepresentable double to `long`) are results of
  their own (`Err`).  The indeterminate values of the two variables that the
  source leaves uninitialised are a parameter of `convert_section`.
* The input file of `main` is the list of the lines that `getline` returns; the
  options are given, and the run yields the exit status, the files written and
  the lines of the chart list, or stops with `ExitError` or with the abort of a
  conversion (`stop`).
-/

namespace Mc2bsbh

/-- A `std::string`. -/
abbrev Str := List Char

/-- The ways a run can fail to produce a result. -/
inductive Err where
  /-- `std::out_of_range` thrown by `string::at` or `string::substr`: the process aborts. -/
  | out_of_range
  /-- Undefined behaviour of C++. -/
  | undefined
  /-- A loop of the model was cut off by its iteration bound. -/
  | fuel
deriving DecidableEq, Repr

deriving instance DecidableEq for Except

/-! ## std::string primitives -/

/-- The call `s.substr(pos, n)` for `pos ≤ s.size()`: the characters
`[pos, min(pos+n, size))`. -/
def substr (s : Str) (pos n : Nat) : Str := (s.drop pos).take n

/-- The call `s.substr(pos)` for `pos ≤ s.size()`. -/
def substr_from (s : Str) (pos : Nat) : Str := s.drop pos

/-- Scan `s` for the first character that is in `set`; `i` is the index of the head of `s`. -/
def find_from (set : List Char) : Str → Nat → Option Nat
  | [], _ => none
  | c :: cs, i => if c ∈ set then some i else find_from set cs (i + 1)

/-- The call `s.find_first_of(set, pos)`; `none` is `string::npos`. -/
def find_first_of (s : Str) (set : List Char) (pos : Nat) : Option Nat :=
  find_from set (s.drop pos) pos

/-- The call `s.find_last_of(c)`; `none` is `string::npos`. -/
def find_last_of (s : Str) (c : Char) : Option Nat :=
  match find_from [c] s.reverse 0 with
  | some i => some (s.length - 1 - i)
  | none => none

/-- The conversion `std::string(s.c_str())`: a C string ends at its first NUL character. -/
def c_str (s : Str) : Str := s.takeWhile (fun c => c ≠ Char.ofNat 0)

/-- Width of `unsigned int` and of `size_t`. -/
def UINT_MOD : Nat := 4294967296

/-- The difference `a - b` of two `size_t` values: it wraps around below zero. -/
def size_sub (a b : Nat) : Nat := if b ≤ a then a - b else UINT_MOD - (b - a)

/-- Conversion of a `long int` to `unsigned int`. -/
def to_unsigned (v : Int) : Nat := (v % (UINT_MOD : Int)).toNat

/-- Smallest `long int`. -/
def LONG_MIN : Int := -2147483648

/-- Largest `long int`. -/
def LONG_MAX : Int := 2147483647

/-- The cast `(long int) d`: truncation toward zero, undefined when the truncated
value is not a `long int`. -/
def to_long (d : ℚ) : Except Err Int :=
  let t := Int.tdiv d.num d.den
  if LONG_MIN ≤ t ∧ t ≤ LONG_MAX then .ok t else .error .undefined

/-- The function `itoa` of the source: `snprintf("%d")`. -/
def itoa (value : Int) : Str :=
  if value < 0 then '-' :: Nat.toDigits 10 value.natAbs else Nat.toDigits 10 value.toNat

/-! ## Arithmetic on `double` -/

/-- A value of the type `double` (IEEE 754 binary64). -/
inductive fp where
  /-- A finite number; `num 0` is the zero `+0.0`. -/
  | num (q : ℚ)
  /-- The zero with the sign bit set, `-0.0`. -/
  | nzero
  /-- An infinity; `inf true` is the negative one. -/
  | inf (negative : Bool)
  /-- Not a number. -/
  | nan
deriving DecidableEq, Repr

namespace fp

/-- The sign bit. -/
def negative : fp → Bool
  | num q => decide (q < 0)
  | nzero => true
  | inf s => s
  | nan => false

def is_zero : fp → Bool
  | num q => decide (q = 0)
  | nzero => true
  | _ => false

def is_inf : fp → Bool
  | inf _ => true
  | _ => false

/-- The number that a finite value denotes. -/
def value : fp → ℚ
  | num q => q
  | _ => 0

/-- The zero of the given sign. -/
def zero (negative : Bool) : fp := if negative then nzero else num 0

end fp

/-- The power `2^e` of an integer exponent. -/
def pow2 (e : Int) : ℚ :=
  if 0 ≤ e then ((2 ^ e.toNat : Nat) : ℚ) else 1 / ((2 ^ (-e).toNat : Nat) : ℚ)

/-- The number of binary digits of `n`. -/
def bit_length (n : Nat) : Nat := (Nat.toDigits 2 n).length

/-- The exponent `e` with `2^e ≤ |q| < 2^(e+1)`, for `q` other than 0: the
difference of the bit lengths of numerator and denominator, or one less. -/
def binade (q : ℚ) : Int :=
  let e : Int := (bit_length q.num.natAbs : Int) - (bit_length q.den : Int)
  if pow2 e ≤ |q| then e else e - 1

/-- The integer nearest to `q`, the even one of the two when `q` is half way. -/
def round_even (q : ℚ) : Int :=
  let f : Int := q.num / (q.den : Int)
  if q - f < 1 / 2 then f
  else if 1 / 2 < q - f then f + 1
  else if f % 2 = 0 then f else f + 1

/-- The `double` nearest to `q` (round to nearest, ties to even): 53 significant
bits, the least exponent -1022 with its subnormal numbers, an infinity from
`2^1024` on.  An exact zero gets the sign `negative`, a zero by underflow and an
infinity the sign of `q`. -/
def round_double (negative : Bool) (q : ℚ) : fp :=
  if q = 0 then fp.zero negative
  else
    let ulp := pow2 (max (binade q) (-1022) - 52)
    let r := (round_even (q / ulp) : ℚ) * ulp
    if pow2 1024 ≤ |r| then .inf (decide (q < 0))
    else if r = 0 then fp.zero (decide (q < 0))
    else .num r

/-- The sum of two doubles. -/
def fp_add : fp → fp → fp
  | .nan, _ => .nan
  | _, .nan => .nan
  | a, b =>
    if a.is_inf && b.is_inf then (if a.negative = b.negative then a else .nan)
    else if a.is_inf then a
    else if b.is_inf then b
    else if a.is_zero && b.is_zero then fp.zero (a.negative && b.negative)
    else round_double false (a.value + b.value)

/-- The product of two doubles. -/
def fp_mul : fp → fp → fp
  | .nan, _ => .nan
  | _, .nan => .nan
  | a, b =>
    if (a.is_inf && b.is_zero) || (a.is_zero && b.is_inf) then .nan
    else if a.is_inf || b.is_inf then .inf (a.negative != b.negative)
    else round_double (a.negative != b.negative) (a.value * b.value)

/-- The quotient of two doubles. -/
def fp_div : fp → fp → fp
  | .nan, _ => .nan
  | _, .nan => .nan
  | a, b =>
    if (a.is_inf && b.is_inf) || (a.is_zero && b.is_zero) then .nan
    else if a.is_inf || b.is_zero then .inf (a.negative != b.negative)
    else if b.is_inf then fp.zero (a.negative != b.negative)
    else round_double (a.negative != b.negative) (a.value / b.value)

/-- The cast `(long int) d` of a double: undefined for an infinity and for a
value that is not a number. -/
def fp_to_long : fp → Except Err Int
  | .num q => to_long q
  | .nzero => .ok 0
  | _ => .error .undefined

/-! ## The record buffer -/

/-- The class `input_buffer`: the lines of one record. -/
structure input_buffer where
  lines : List Str
deriving DecidableEq, Repr

/-- Extract field from a string with comma separated substrings: the loop
`while (field_number > 0 && cp != npos)`. -/
def extract_field_skip (in_string : Str) : Nat → Option Nat → Option Nat
  | 0, cp => cp
  | _ + 1, none => none
  | field_number + 1, some cp =>
    extract_field_skip in_string field_number
      ((find_first_of in_string [','] cp).map (fun p => p + 1))

/-- The function `extract_field` of the source. -/
def extract_field (in_string : Str) (field_number : Nat) : Str :=
  match extract_field_skip in_string field_number (some 0) with
  | none => []
  | some cp =>
    if in_string.isEmpty then []
    else
      let ep := (find_first_of in_string [','] cp).getD in_string.length
      substr in_string cp (ep - cp)

namespace input_buffer

/-- The sentinel `NAN_L = -0x7FFFFFFF`. -/
def NAN_L : Int := -0x7FFFFFFF

/-- The sentinel `NAN_D = NAN_L`. -/
def NAN_D : ℚ := (NAN_L : Int)

def reset (_ : input_buffer) : input_buffer := ⟨[]⟩

def count (b : input_buffer) : Nat := b.lines.length

def empty (b : input_buffer) : Bool := b.lines.isEmpty

/-- Add a line to the buffer. -/
def add_line (b : input_buffer) (new_line : Str) : input_buffer :=
  ⟨b.lines ++ [new_line]⟩

/-- Append a line to last line in the buffer; the flag is the returned `bool`. -/
def append_line (b : input_buffer) (text : Str) : Bool × input_buffer :=
  if b.empty then (false, b)
  else (true, ⟨b.lines.set (b.count - 1) (b.lines.getD (b.count - 1) [] ++ '\n' :: text)⟩)

/-- Get the line from the buffer with the given line number. -/
def line (b : input_buffer) (line_number : Nat) : Str :=
  if line_number < b.count then b.lines.getD line_number [] else []

/-- The test of `field` on one line. -/
def field_match (l field_name : Str) : Bool :=
  decide (l.length > field_name.length + 1) &&
    (l.take field_name.length == field_name) &&
    (l[field_name.length]? == some '=')

/-- The loop `while (u < count())` of `field`; the first argument bounds the
number of iterations that are left. -/
def field_loop (b : input_buffer) (field_name : Str) : Nat → Nat → Str
  | 0, _ => []
  | n + 1, u =>
    if u < b.count then
      if field_match (b.line u) field_name then substr_from (b.line u) (field_name.length + 1)
      else field_loop b field_name n (u + 1)
    else []

/-- Search and return a field from the given field name from the buffer. -/
def field (b : input_buffer) (field_name : Str) : Str :=
  field_loop b field_name b.count 0

/-- Search field in buffer and convert to double (return `NAN_D` if undefined). -/
def field_double (strtod : Str → ℚ) (b : input_buffer) (field_name : Str) (index : Nat) : ℚ :=
  let info := extract_field (b.field field_name) index
  if info.isEmpty then NAN_D else strtod (c_str info)

/-- The method `field_string`: the sub-field, through `c_str()`. -/
def field_string (b : input_buffer) (field_name : Str) (index : Nat) : Str :=
  c_str (extract_field (b.field field_name) index)

/-- Search field in buffer and convert to long. -/
def field_long (strtod : Str → ℚ) (b : input_buffer) (field_name : Str) (index : Nat) :
    Except Err Int :=
  to_long (b.field_double strtod field_name index)

end input_buffer

/-! ## The section transcoder -/

/-- The command line options in a combined struct. -/
structure command_line_info where
  debug_on : Bool
  list : Bool
  sw_single : Str
  sw_ext : Str
  sw_out_name : Str
  in_filename : Str
deriving DecidableEq, Repr

/-- One operand of `operator<<` on the output file. -/
inductive Tok where
  /-- A `std::string` or a string literal. -/
  | str (s : Str)
  /-- A `long int` or an `unsigned int`. -/
  | num (n : Int)
  /-- A `double`, written with the stream precision that is in force. -/
  | dbl (precision : Nat) (d : ℚ)
deriving DecidableEq, Repr

/-- The file written for one record: its name and its lines. -/
structure out_file where
  name : Str
  lines : List (List Tok)
deriving DecidableEq, Repr

/-- The macro `VERSION`. -/
def VERSION : Str := "beta09".toList

/-- The loop `while (cline.at(0) == ' ') cline=cline.substr(1);`: `at(0)` throws on
the empty string. -/
def skip_spaces : Str → Except Err Str
  | [] => .error .out_of_range
  | c :: cs => if c = ' ' then skip_spaces cs else .ok (c :: cs)

/-- The loop `while (!tline.empty())` that copies the sub-fields of the field
`key` of `tmp` into `buf`; the first argument bounds the iterations left. -/
def inject_loop (tmp : input_buffer) (key : Str) :
    Nat → Nat → input_buffer → Except Err input_buffer
  | 0, _, _ => .error .fuel
  | n + 1, tfield, buf =>
    let tline := tmp.field_string key tfield
    if tline.isEmpty then .ok buf
    else inject_loop tmp key n (tfield + 1) (buf.add_line tline)

/-- The variables of the comment scan of `convert_section`, the position `brk`
apart: the record buffer, the scratch buffer `tmp`, the counter `addn` and the
comment lines written so far. -/
structure cr_state where
  buf : input_buffer
  tmp : input_buffer
  addn : Int
  out : List (List Tok)
deriving DecidableEq, Repr

/-- The characters that end a sub-line of the comment field. -/
def CR_BREAKS : List Char := ['\t', '\r', '\n']

/-- The body of the comment scan for the sub-line `cline`. -/
def cr_line (cline : Str) (s : cr_state) : Except Err cr_state :=
  if substr cline 0 6 = "BSBHDR".toList then
    match skip_spaces (substr_from cline 6) with
    | .error e => .error e
    | .ok cline =>
      if substr cline 0 4 = "KNP/".toList then
        let tmp := s.tmp.add_line ("KNP=".toList ++ substr_from cline 4)
        match inject_loop tmp "KNP".toList ((tmp.field "KNP".toList).length + 2) 0 s.buf with
        | .error e => .error e
        | .ok buf => .ok { s with buf := buf, tmp := tmp }
      else if substr cline 0 4 = "BSB/".toList then
        let tmp := s.tmp.add_line ("BSB=".toList ++ substr_from cline 4)
        match inject_loop tmp "BSB".toList ((tmp.field "BSB".toList).length + 2) 0 s.buf with
        | .error e => .error e
        | .ok buf => .ok { s with buf := buf, tmp := tmp }
      else
        .ok { s with
              buf := s.buf.add_line ("ADD".toList ++ itoa s.addn ++ "=".toList ++ cline)
              addn := s.addn + 1 }
  else
    .ok { s with out := s.out ++ [[Tok.str "! ".toList, Tok.str cline]] }

/-- The loop `do ... while (brk <= st.length())` over the comment field `st`; the
first argument bounds the iterations left, the second is `brk`. -/
def cr_loop (st : Str) : Nat → Nat → cr_state → Except Err cr_state
  | 0, _, _ => .error .fuel
  | n + 1, brk, s =>
    let nxt := (find_first_of st CR_BREAKS brk).getD (st.length + 1)
    let cline := substr st brk (nxt - brk)
    match cr_line cline s with
    | .error e => .error e
    | .ok s1 => if nxt + 1 ≤ st.length then cr_loop st n (nxt + 1) s1 else .ok s1

/-- The processing of the CR field: the buffer after the injections and the
comment lines written to the file. -/
def process_comment (buf : input_buffer) : Except Err (input_buffer × List (List Tok)) :=
  let st := buf.field "CR".toList
  if st.isEmpty then .ok (buf, [])
  else
    match cr_loop st (st.length + 1) 0 ⟨buf, ⟨[]⟩, 1, []⟩ with
    | .error e => .error e
    | .ok s => .ok (s.buf, s.out)

/-- The loop over the fields `ADD1`, `ADD2`, ...: the lines it writes. -/
def add_loop (buf : input_buffer) : Nat → Nat → Except Err (List (List Tok))
  | 0, _ => .error .fuel
  | n + 1, cnt =>
    let st := buf.field ("ADD".toList ++ itoa cnt)
    if st.isEmpty then .ok []
    else
      match add_loop buf n (cnt + 1) with
      | .error e => .error e
      | .ok rest => .ok ([Tok.str st] :: rest)

/-- The variables `maxlon`, `minlon`, `maxlonx`, `minlonx`. -/
structure ref_state where
  maxlon : ℚ
  minlon : ℚ
  maxlonx : Int
  minlonx : Int
deriving DecidableEq, Repr

/-- The values of the variables before the loop over the tie points.  The source
declares `maxlonx` and `minlonx` without an initialiser: `garbage` is the pair of
indeterminate values they hold. -/
def ref_init (garbage : Int × Int) : ref_state := ⟨-181, 181, garbage.1, garbage.2⟩

/-- The loop over the fields `C1`, `C2`, ...: the lines it writes and the
variables after it. -/
def ref_loop (strtod : Str → ℚ) (buf : input_buffer) :
    Nat → Nat → ref_state → Except Err (List (List Tok) × ref_state)
  | 0, _, _ => .error .fuel
  | n + 1, cnt, s =>
    let key := "C".toList ++ itoa cnt
    if (buf.field key).isEmpty then .ok ([], s)
    else
      match buf.field_long strtod key 0, buf.field_long strtod key 1 with
      | .error e, _ => .error e
      | .ok _, .error e => .error e
      | .ok refx, .ok refy =>
        let lat := buf.field_double strtod key 2
        let lon := buf.field_double strtod key 3
        let lon := if lon > 180 then lon - 360 else lon
        let s1 := if lon > s.maxlon then { s with maxlon := lon, maxlonx := refx } else s
        let s2 := if lon < s1.minlon then { s1 with minlon := lon, minlonx := refx } else s1
        match ref_loop strtod buf n (cnt + 1) s2 with
        | .error e => .error e
        | .ok (rest, s3) =>
          .ok ([Tok.str "REF/".toList, Tok.num cnt, Tok.str ",".toList, Tok.num refx,
                Tok.str ",".toList, Tok.num refy, Tok.str ",".toList, Tok.dbl 9 lat,
                Tok.str ",".toList, Tok.dbl 9 lon] :: rest, s3)

/-- The phase line written after the tie points. -/
def cph_line (s : ref_state) : List Tok :=
  if s.maxlon * s.minlon < 0 ∧ s.maxlonx < s.minlonx then [Tok.str "CPH/180.0".toList]
  else [Tok.str "CPH/0.0".toList]

/-- The loop over the fields `B1`, `B2`, ...: the lines it writes. -/
def ply_loop (strtod : Str → ℚ) (buf : input_buffer) : Nat → Nat → Except Err (List (List Tok))
  | 0, _ => .error .fuel
  | n + 1, cnt =>
    let key := "B".toList ++ itoa cnt
    if (buf.field key).isEmpty then .ok []
    else
      let lat := buf.field_double strtod key 0
      let lon := buf.field_double strtod key 1
      let lon := if lon > 180 then lon - 360 else lon
      match ply_loop strtod buf n (cnt + 1) with
      | .error e => .error e
      | .ok rest =>
        .ok ([Tok.str "PLY/".toList, Tok.num cnt, Tok.str ",".toList, Tok.dbl 9 lat,
              Tok.str ",".toList, Tok.dbl 9 lon] :: rest)

/-- The title of the record without its brackets and extension (line 0 is taken
to be the chart title enclosed in `[]`); `substr(1, length-2)` throws on an empty
line 0 and `length-2` is computed in `size_t`. -/
def chart_name (buf : input_buffer) : Except Err Str :=
  let l0 := buf.line 0
  if l0.length < 1 then .error .out_of_range
  else
    let mc_chart_name := substr l0 1 (size_sub l0.length 2)
    match find_last_of mc_chart_name '.' with
    | some find_end => .ok (substr mc_chart_name 0 find_end)
    | none => .ok mc_chart_name

/-- The name of the file that is written. -/
def file_name (opt : command_line_info) (mc_chart_name : Str) : Str :=
  if opt.sw_out_name.isEmpty then
    if opt.sw_ext.isEmpty then mc_chart_name ++ ".hdr".toList
    else mc_chart_name ++ ".".toList ++ opt.sw_ext
  else opt.sw_out_name

/-- The derived value `du`, line 296 of the source:
`(long int) ((sc * 2.54 / (( dx + dy ) / 2.0 * 100.0)) + 0.5)`, every operation
rounded to a `double`; `sc` and the literals 2.0, 100.0 and 0.5 are doubles as
they stand, the literal 2.54 is the double nearest to it. -/
def calc_du (sc : Int) (dx dy : ℚ) : Except Err Int :=
  if sc ≠ 0 ∧ sc ≠ input_buffer.NAN_L ∧ dx ≠ 0 ∧ dx ≠ input_buffer.NAN_D ∧
      dy ≠ 0 ∧ dy ≠ input_buffer.NAN_D then
    fp_to_long
      (fp_add
        (fp_div (fp_mul (.num sc) (round_double false 2.54))
          (fp_mul (fp_div (fp_add (.num dx) (.num dy)) (.num 2)) (.num 100)))
        (.num 0.5))
  else .ok 0

/-- The list of projection labels. -/
def PR_LABELS : Str := "UNKNOWN,MERCATOR,TRANSVERSE MERCATOR,LAMBERT CONFORMAL CONIC".toList

/-- The list of unit labels. -/
def UN_LABELS : Str := "UNKNOWN,METERS,FEET,FATHOMS".toList

/-- The projection code after `if ((projection==NAN_L)||(projection>3)) projection = 0;`. -/
def clamp_projection (projection : Int) : Int :=
  if projection = input_buffer.NAN_L ∨ projection > 3 then 0 else projection

/-- The unit code after `if (i==NAN_L) i = 0;`. -/
def clamp_unit (i : Int) : Int :=
  if i = input_buffer.NAN_L then 0 else i

/-- A field whose absence is detected by the sentinel of its first sub-field. -/
def field_or (strtod : Str → ℚ) (buf : input_buffer) (field_name dflt : Str) : Str :=
  if buf.field_double strtod field_name 0 = input_buffer.NAN_D then dflt
  else buf.field field_name

/-- The lines from `VER/2.0` to the `DX=` line. -/
def header_lines (strtod : Str → ℚ) (buf : input_buffer) (sc du projection : Int)
    (pr un : Str) (dx dy : ℚ) : List (List Tok) :=
  let pp := field_or strtod buf "PP".toList "UNKNOWN".toList
  let pi := field_or strtod buf "PI".toList "UNKNOWN".toList
  let sp := field_or strtod buf "SP".toList "UNKNOWN".toList
  let sk := field_or strtod buf "SK".toList "0.0".toList
  let ta := field_or strtod buf "TA".toList "90.0".toList
  let sd := if (buf.field "SD".toList).isEmpty then "UNKNOWN".toList else buf.field "SD".toList
  let lon0 := buf.field_double strtod "LON0".toList 0
  [ [Tok.str "VER/2.0".toList],
    [Tok.str "BSB/NA=".toList, Tok.str (buf.field "NA".toList)],
    [Tok.str "    NU=".toList, Tok.str (buf.field "NU".toList), Tok.str ",RA=".toList,
     Tok.str (buf.field "WI".toList), Tok.str ",".toList, Tok.str (buf.field "HE".toList),
     Tok.str ",DU=".toList, Tok.num du],
    [Tok.str "KNP/SC=".toList, Tok.num sc, Tok.str ",GD=".toList,
     Tok.str (buf.field "GD".toList), Tok.str ",PR=".toList, Tok.str pr,
     Tok.str ",PP=".toList,
     if lon0 ≠ input_buffer.NAN_D ∧ projection = 2 ∧ pp = "UNKNOWN".toList then Tok.dbl 6 lon0
     else Tok.str pp],
    [Tok.str "    PI=".toList, Tok.str pi, Tok.str ",SP=".toList, Tok.str sp,
     Tok.str ",SK=".toList, Tok.str sk, Tok.str ",TA=".toList, Tok.str ta],
    [Tok.str "    UN=".toList, Tok.str un, Tok.str ",SD=".toList, Tok.str sd],
    [Tok.str "    DX=".toList, Tok.dbl 6 dx, Tok.str ",DY=".toList, Tok.dbl 6 dy] ]

/-- The last line: the datum shift. -/
def dtm_line (strtod : Str → ℚ) (buf : input_buffer) : List Tok :=
  [Tok.str "DTM/".toList, Tok.dbl 9 (buf.field_double strtod "DS".toList 0 * 3600),
   Tok.str ",".toList, Tok.dbl 9 (buf.field_double strtod "DS".toList 1 * 3600)]

/-- Convert a section of a MapCal file: the file that is written for the record
in `buf`.  `garbage` is what the uninitialised `maxlonx` and `minlonx` hold. -/
def convert_section (strtod : Str → ℚ) (garbage : Int × Int) (buf : input_buffer)
    (opt : command_line_info) : Except Err out_file := do
  let mc_chart_name ← chart_name buf
  let st := file_name opt mc_chart_name
  let sc ← buf.field_long strtod "SC".toList 0
  let dx := buf.field_double strtod "DX".toList 0
  let dy := buf.field_double strtod "DY".toList 0
  let du ← calc_du sc dx dy
  let projection ← buf.field_long strtod "PR".toList 0
  let projection := clamp_projection projection
  let pr := extract_field PR_LABELS (to_unsigned projection)
  let i ← buf.field_long strtod "DU".toList 0
  let un := extract_field UN_LABELS (to_unsigned (clamp_unit i))
  let created := [Tok.str "! Created by mc2bsbh ".toList, Tok.str VERSION,
    Tok.str " - Use at your own risk!".toList]
  let (buf, comments) ← process_comment buf
  let header := header_lines strtod buf sc du projection pr un dx dy
  let adds ← add_loop buf (buf.count + 1) 1
  let (refs, rs) ← ref_loop strtod buf (buf.count + 1) 1 (ref_init garbage)
  let plys ← ply_loop strtod buf (buf.count + 1) 1
  pure ⟨st, created :: comments ++ header ++ adds ++ [[Tok.str "OST/1".toList]] ++ refs ++
    [cph_line rs] ++ plys ++ [dtm_line strtod buf]⟩

/-- The lines of the file written for a record; no line when the conversion fails. -/
def emitted (strtod : Str → ℚ) (garbage : Int × Int) (buf : input_buffer)
    (opt : command_line_info) : List (List Tok) :=
  match convert_section strtod garbage buf opt with
  | .ok out => out.lines
  | .error _ => []

/-! ## A decimal reading of numbers, for evaluating the definitions -/

/-- Read a run of decimal digits: the number read so far, the count of digits
read, and the rest of the text. -/
def read_digits : Str → Nat → Nat → Nat × Nat × Str
  | [], acc, n => (acc, n, [])
  | c :: cs, acc, n =>
    if c.isDigit then read_digits cs (acc * 10 + (c.toNat - 48)) (n + 1) else (acc, n, c :: cs)

/-- The exponent part of a decimal number, 0 when there is none. -/
def read_exponent : Str → Int
  | c :: r =>
    if c = 'e' ∨ c = 'E' then
      match r with
      | '-' :: t => if (read_digits t 0 0).2.1 = 0 then 0 else -((read_digits t 0 0).1 : Int)
      | '+' :: t => if (read_digits t 0 0).2.1 = 0 then 0 else ((read_digits t 0 0).1 : Int)
      | t => if (read_digits t 0 0).2.1 = 0 then 0 else ((read_digits t 0 0).1 : Int)
    else 0
  | [] => 0

/-- The unsigned part of a decimal number. -/
def read_unsigned (s : Str) : ℚ :=
  let ip := read_digits s 0 0
  let fp := match ip.2.2 with
    | '.' :: r => read_digits r 0 0
    | r => (0, 0, r)
  if ip.2.1 + fp.2.1 = 0 then 0
  else ((ip.1 * 10 ^ fp.2.1 + fp.1 : Nat) : ℚ) / ((10 ^ fp.2.1 : Nat) : ℚ) *
    (10 : ℚ) ^ read_exponent fp.2.2

/-- The exact value of a decimal text in the syntax that `strtod` accepts
(white space, sign, digits with a point, exponent), 0 when there is no number;
hexadecimal texts, `inf` and `nan` are left out.  It is `strtod` wherever the
value read is a `double`. -/
def strtod_dec (s : Str) : ℚ :=
  match s.dropWhile (fun c => c = ' ' ∨ ('\t' ≤ c ∧ c ≤ '\r')) with
  | '-' :: r => -read_unsigned r
  | '+' :: r => read_unsigned r
  | r => read_unsigned r

/-- The double nearest to the value of a decimal text: `strtod` for every text
in the syntax of `strtod_dec` whose value lies in the range of the finite
doubles (beyond it `strtod` returns an infinity). -/
def strtod_nearest (s : Str) : ℚ := (round_double false (strtod_dec s)).value

/-- No option set on the command line. -/
def no_options : command_line_info := ⟨false, false, [], [], [], []⟩

/-! ## The behaviour the spec describes, in its own words -/

/-- The guard of the resolution derivation: the scale and both pixel pitches are
present (not the sentinel) and non-zero. -/
def du_guard (sc : Int) (dx dy : ℚ) : Prop :=
  sc ≠ 0 ∧ sc ≠ input_buffer.NAN_L ∧ dx ≠ 0 ∧ dx ≠ input_buffer.NAN_D ∧
    dy ≠ 0 ∧ dy ≠ input_buffer.NAN_D

/-- The quotient `scale * 2.54 / (average_pixel_pitch * 100)` of the spec. -/
def du_quotient (sc : Int) (dx dy : ℚ) : ℚ :=
  (sc : ℚ) * 2.54 / ((dx + dy) / 2 * 100)

/-- The sub-lines of a comment field: the field split at tab, CR and LF. -/
def sublines (st : Str) : List Str :=
  st.splitOnP (fun c => decide (c ∈ CR_BREAKS))

/-- The comment scan as the spec describes it: the sub-lines are processed one
after the other. -/
def cr_lines : List Str → cr_state → Except Err cr_state
  | [], s => .ok s
  | cline :: rest, s =>
    match cr_line cline s with
    | .error e => .error e
    | .ok s1 => cr_lines rest s1

/-- The number that a run of decimal digits writes. -/
def digits_value (ds : Str) : Nat := ds.foldl (fun a c => a * 10 + (c.toNat - 48)) 0

/-- The line `    NU=...,RA=...,...,DU=...` of the output. -/
def nu_line (nu wi he : Str) (du : Int) : List Tok :=
  [Tok.str "    NU=".toList, Tok.str nu, Tok.str ",RA=".toList, Tok.str wi,
   Tok.str ",".toList, Tok.str he, Tok.str ",DU=".toList, Tok.num du]

/-- The line `    PI=...,SP=...,SK=...,TA=...` of the output. -/
def pi_line (pi sp sk ta : Str) : List Tok :=
  [Tok.str "    PI=".toList, Tok.str pi, Tok.str ",SP=".toList, Tok.str sp,
   Tok.str ",SK=".toList, Tok.str sk, Tok.str ",TA=".toList, Tok.str ta]

/-- The first line that `field` accepts for the key `k`, as the spec words it:
the first line strictly longer than `length(k)+1` that begins with `k=`. -/
def first_match (lines : List Str) (k : Str) : Option Str :=
  lines.find? (fun l => decide (k.length + 1 < l.length ∧ (k ++ ['=']) <+: l))

/-- What `field` returns according to the spec: the text after `k=` in the
first matching line, the empty string when there is none. -/
def field_spec (lines : List Str) (k : Str) : Str :=
  match first_match lines k with
  | some l => l.drop (k.length + 1)
  | none => []

/-- The normalised longitude of the spec: 360 is taken off a value above 180. -/
def norm_lon (lon : ℚ) : ℚ := if lon > 180 then lon - 360 else lon

/-- The line `PLY/n,lat,lon` for the field `Bn` of the buffer, as the spec
describes it. -/
def ply_line (strtod : Str → ℚ) (buf : input_buffer) (n : Nat) : List Tok :=
  [Tok.str "PLY/".toList, Tok.num n, Tok.str ",".toList,
   Tok.dbl 9 (buf.field_double strtod ("B".toList ++ itoa n) 0), Tok.str ",".toList,
   Tok.dbl 9 (norm_lon (buf.field_double strtod ("B".toList ++ itoa n) 1))]

/-- A polygon line of the output: six operands, the first of them `PLY/`. -/
def is_ply_line (l : List Tok) : Bool :=
  l.length == 6 && l.head? == some (Tok.str "PLY/".toList)

/-- The line `KNP/SC=...,GD=...,PR=...,PP=...` of the output; the last operand
is a text or a number. -/
def knp_line (sc : Int) (gd pr : Str) (pp : Tok) : List Tok :=
  [Tok.str "KNP/SC=".toList, Tok.num sc, Tok.str ",GD=".toList, Tok.str gd,
   Tok.str ",PR=".toList, Tok.str pr, Tok.str ",PP=".toList, pp]

/-! ## The record splitter -/

/-- The white space that `trim` and `trim_trailing` remove. -/
def WHITESPACE : List Char := ['\n', '\r', '\t', ' ']

/-- Scan `s` for the first character that is not in `set`; `i` is the index of
the head of `s`. -/
def find_not_from (set : List Char) : Str → Nat → Option Nat
  | [], _ => none
  | c :: cs, i => if c ∈ set then find_not_from set cs (i + 1) else some i

/-- The call `s.find_first_not_of(set)`; `none` is `string::npos`. -/
def find_first_not_of (s : Str) (set : List Char) : Option Nat :=
  find_not_from set s 0

/-- The call `s.find_last_not_of(set)`; `none` is `string::npos`. -/
def find_last_not_of (s : Str) (set : List Char) : Option Nat :=
  match find_not_from set s.reverse 0 with
  | some i => some (s.length - 1 - i)
  | none => none

/-- Remove trailing whitespaces; a string of white space only is left as it is. -/
def trim_trailing (s : Str) : Str :=
  match find_last_not_of s WHITESPACE with
  | some last => substr s 0 (last + 1)
  | none => s

/-- Remove leading and trailing whitespaces. -/
def trim (s : Str) : Str :=
  match find_first_not_of s WHITESPACE with
  | none => []
  | some first =>
    match find_last_not_of s WHITESPACE with
    | some last => substr s first (last + 1 - first)
    | none => substr_from s first

/-- The variables of `main` while the file is read: the buffer `inp`, the
counter `nout`, and what has been written so far, the files and the lines of
the chart list on the standard output. -/
structure run_state where
  inp : input_buffer
  nout : Nat
  files : List out_file
  listing : List (List Tok)
deriving DecidableEq, Repr

/-- The ways a run ends before `main` returns. -/
inductive stop where
  /-- The call `ExitError("Bad Calibration File")`: the message and `exit(1)`. -/
  | bad_calibration
  /-- The conversion of a record aborted. -/
  | aborted (e : Err)
deriving DecidableEq, Repr

/-- The variable `chart_name` of `main`: the field `FN` up to its last `.`. -/
def record_name (inp : input_buffer) : Str :=
  match find_last_of (inp.field "FN".toList) '.' with
  | some find_end => substr (inp.field "FN".toList) 0 find_end
  | none => inp.field "FN".toList

/-- The block of `main` that hands the pending record on: it is listed, or
converted, or skipped, and the buffer is reset.  `garbage n` is what the
uninitialised variables of the conversion number `n` hold. -/
def dispatch (strtod : Str → ℚ) (garbage : Nat → Int × Int) (opt : command_line_info)
    (s : run_state) : Except stop run_state :=
  if opt.list then
    .ok { s with
          listing := s.listing ++
            [[Tok.str (record_name s.inp), Tok.str (s.inp.field "NA".toList)]]
          inp := s.inp.reset }
  else if opt.sw_single = [] ∨ record_name s.inp = opt.sw_single then
    match convert_section strtod (garbage s.nout) s.inp opt with
    | .error e => .error (.aborted e)
    | .ok out =>
      .ok { s with files := s.files ++ [out], nout := s.nout + 1, inp := s.inp.reset }
  else .ok { s with inp := s.inp.reset }

/-- One pass through the body of the loop `while(!inFile.eof())` of `main`, for
the line that `getline` has read. -/
def main_step (strtod : Str → ℚ) (garbage : Nat → Int × Int) (opt : command_line_info)
    (s : run_state) (line : Str) : Except stop run_state :=
  let incoming := trim_trailing line
  if ¬ incoming.isEmpty ∧ incoming.head? ≠ some ';' then
    match (if incoming.head? = some '[' ∧ incoming.getLast? = some ']' ∧ ¬ s.inp.empty then
        dispatch strtod garbage opt s else .ok s) with
    | .error r => .error r
    | .ok s1 =>
      if incoming.head? = some ' ' then
        if (s1.inp.append_line (trim incoming)).1 then
          .ok { s1 with inp := (s1.inp.append_line (trim incoming)).2 }
        else .error .bad_calibration
      else .ok { s1 with inp := s1.inp.add_line (trim incoming) }
  else .ok s

/-- The loop `while(!inFile.eof())` of `main` over the lines of the file. -/
def main_loop (strtod : Str → ℚ) (garbage : Nat → Int × Int) (opt : command_line_info) :
    List Str → run_state → Except stop run_state
  | [], s => .ok s
  | line :: rest, s =>
    match main_step strtod garbage opt s line with
    | .error r => .error r
    | .ok s1 => main_loop strtod garbage opt rest s1

/-- The function `main` once the file is open: the exit status and the final
state, for the lines of the file. -/
def main_run (strtod : Str → ℚ) (garbage : Nat → Int × Int) (opt : command_line_info)
    (input : List Str) : Except stop (Nat × run_state) :=
  match main_loop strtod garbage opt input ⟨⟨[]⟩, 0, [], []⟩ with
  | .error r => .error r
  | .ok s =>
    match (if ¬ s.inp.empty then dispatch strtod garbage opt s else .ok s) with
    | .error r => .error r
    | .ok s1 => .ok (if s1.nout > 0 then 0 else 1, s1)

/-- The indeterminate values taken to be 0 at every conversion. -/
def no_garbage : Nat → Int × Int := fun _ => (0, 0)

/-- The options of a run with `-l`. -/
def list_options : command_line_info := ⟨false, true, [], [], [], []⟩

/-- A line that the splitter ignores: empty, or a comment beginning with `;`. -/
def ignored (l : Str) : Bool := l.isEmpty || l.head? == some ';'

/-- The first line of the stream that is not ignored. -/
def first_read (input : List Str) : Option Str := input.find? (fun l => !ignored l)

/-- A text without its extension, as the spec words it: the text from the last
`.` on is taken off. -/
def strip_extension (s : Str) : Str :=
  if '.' ∈ s then ((s.reverse.dropWhile (fun c => c ≠ '.')).drop 1).reverse else s

/-- The text of a `BSBHDR` command: what follows the token and the spaces after
it; `none` for a sub-line that is no command. -/
def command_text (cline : Str) : Option Str :=
  if "BSBHDR".toList <+: cline then some ((cline.drop 6).dropWhile (fun c => c = ' '))
  else none

/-- A command text that injects sub-fields: it begins with `KNP/` or `BSB/`. -/
def is_injection (r : Str) : Prop := "KNP/".toList <+: r ∨ "BSB/".toList <+: r

instance (r : Str) : Decidable (is_injection r) := by
  unfold is_injection
  infer_instance

/-- The text of a sub-line that is a command without `KNP/` or `BSB/` prefix. -/
def add_text (cline : Str) : Option Str :=
  match command_text cline with
  | some r => if is_injection r then none else some r
  | none => none

/-- The texts of the commands of a comment field that have no `KNP/` or `BSB/`
prefix, in order of appearance. -/
def add_commands (st : Str) : List Str :=
  (sublines st).filterMap add_text

/-- The synthetic line `ADDn=text`. -/
def add_field (n : Nat) (r : Str) : Str :=
  "ADD".toList ++ itoa (n : Int) ++ "=".toList ++ r

/-- The synthetic lines of the texts `rs`, numbered from `a` on. -/
def number_from : Nat → List Str → List Str
  | _, [] => []
  | a, r :: rs => add_field a r :: number_from (a + 1) rs

/-- No sub-field that a `KNP/` or `BSB/` command of the comment field `st`
injects begins with `ADD`. -/
def injects_no_add (st : Str) : Prop :=
  ∀ c ∈ sublines st, ∀ r, command_text c = some r → is_injection r →
    ∀ f ∈ (r.drop 4).splitOn ',', ¬ "ADD".toList <+: f

/-- No sub-field of a line of the scratch buffer begins with `ADD`. -/
def tmp_no_add (tmp : input_buffer) : Prop :=
  ∀ tl ∈ tmp.lines, ∀ f ∈ (tl.drop 4).splitOn ',', ¬ "ADD".toList <+: f

/-- The line `    DX=...,DY=...` of the output. -/
def dx_line (dx dy : ℚ) : List Tok :=
  [Tok.str "    DX=".toList, Tok.dbl 6 dx, Tok.str ",DY=".toList, Tok.dbl 6 dy]

/-- The line feeds that a token puts into the file: a number is written
without any. -/
def Tok.feeds : Tok → Nat
  | .str s => s.count '\n'
  | .num _ => 0
  | .dbl _ _ => 0

/-- The text lines that the written lines take in the file: each of them is
ended by `endl`, and a string that holds line feeds spreads over more than one. -/
def text_lines_written (ls : List (List Tok)) : Nat :=
  (ls.map (fun l => (l.map Tok.feeds).sum + 1)).sum

/-- The text lines that the buffer holds: a line of the buffer holds the
continuation lines appended to it, each after a line feed. -/
def input_buffer.text_lines (b : input_buffer) : Nat :=
  (b.lines.map (fun l => l.count '\n' + 1)).sum


/-- A record whose comment field holds a comment, a `KNP` command with two
sub-fields and a further command, with an `ADD1` continued on a second line,
two tie points and one boundary point. -/
def commented_record : input_buffer :=
  ⟨["[t]".toList, "CR=note\nBSBHDR KNP/SC=5000,GD=WGS84\nBSBHDR more".toList,
    "ADD1=x\ny".toList, "C1=1,2,3,4".toList, "C2=5,6,7,190".toList, "B1=10,20".toList]⟩

/-- The buffer of `commented_record` after its comment commands. -/
def commented_record_after : input_buffer :=
  ⟨commented_record.lines ++ ["SC=5000".toList, "GD=WGS84".toList, "ADD1=more".toList]⟩

/-! ## Lemmas on the string primitives -/

theorem find_from_none (set : List Char) (t : Str) (i : Nat) :
    find_from set t i = none ↔ ∀ c ∈ t, c ∉ set := by
  induction t generalizing i with
  | nil => simp [find_from]
  | cons c cs ih =>
    by_cases h : c ∈ set
    · simp [find_from, h]
    · simp [find_from, h, ih]

theorem find_from_some (set : List Char) (t : Str) (i j : Nat)
    (h : find_from set t i = some j) :
    ∃ pre c post, t = pre ++ c :: post ∧ (∀ x ∈ pre, x ∉ set) ∧ c ∈ set ∧ j = i + pre.length := by
  induction t generalizing i with
  | nil => simp [find_from] at h
  | cons c cs ih =>
    by_cases hc : c ∈ set
    · simp [find_from, hc] at h
      exact ⟨[], c, cs, rfl, by simp, hc, by simp [h]⟩
    · simp [find_from, hc] at h
      obtain ⟨pre, d, post, h1, h2, h3, h4⟩ := ih (i + 1) h
      refine ⟨c :: pre, d, post, by simp [h1], ?_, h3, by simp [h4]; omega⟩
      intro x hx
      rcases List.mem_cons.mp hx with rfl | hx
      · exact hc
      · exact h2 x hx

/-! ## The record buffer: `field` finds the first match -/

theorem field_match_iff (l k : Str) :
    input_buffer.field_match l k = true ↔ k.length + 1 < l.length ∧ (k ++ ['=']) <+: l := by
  unfold input_buffer.field_match
  simp only [Bool.and_eq_true, decide_eq_true_eq, beq_iff_eq, gt_iff_lt]
  constructor
  · rintro ⟨⟨h1, h2⟩, h3⟩
    refine ⟨h1, ?_⟩
    rw [List.prefix_iff_eq_take]
    simp only [List.length_append, List.length_singleton]
    rw [List.take_succ, h2, h3]
    rfl
  · rintro ⟨h1, h2⟩
    rw [List.prefix_iff_eq_take] at h2
    simp only [List.length_append, List.length_singleton] at h2
    rw [List.take_succ] at h2
    have hlen : (List.take k.length l).length = k.length := by
      simp; omega
    have := List.append_inj h2 hlen.symm
    refine ⟨⟨h1, this.1.symm⟩, ?_⟩
    have h3 := this.2
    cases hh : l[k.length]? with
    | none => rw [hh] at h3; simp at h3
    | some c => rw [hh] at h3; simp at h3; rw [h3]

theorem field_loop_eq (b : input_buffer) (k : Str) (n u : Nat) (h : u + n = b.count) :
    input_buffer.field_loop b k n u = field_spec (b.lines.drop u) k := by
  induction n generalizing u with
  | zero =>
    have : b.lines.length ≤ u := by simp [input_buffer.count] at h; omega
    simp [input_buffer.field_loop, field_spec, first_match, List.drop_eq_nil_of_le this]
  | succ n ih =>
    have hu : u < b.lines.length := by simp [input_buffer.count] at h; omega
    have hd : b.lines.drop u = b.lines[u] :: b.lines.drop (u + 1) :=
      List.drop_eq_getElem_cons hu
    have hl : b.line u = b.lines[u] := by
      simp [input_buffer.line, input_buffer.count, hu, List.getD_eq_getElem?_getD]
    rw [input_buffer.field_loop, if_pos (by simpa [input_buffer.count] using hu), hl, hd]
    by_cases hm : input_buffer.field_match b.lines[u] k = true
    · rw [if_pos hm]
      have hm1 := (field_match_iff _ _).mp hm
      simp only [field_spec, first_match, List.find?_cons, hm1, decide_True, and_self, substr_from]
    · rw [if_neg hm, ih (u + 1) (by omega)]
      have hm2 : ¬ (k.length + 1 < (b.lines[u]).length ∧ (k ++ ['=']) <+: b.lines[u]) :=
        fun hc => hm ((field_match_iff _ _).mpr hc)
      simp only [field_spec, first_match, List.find?_cons, hm2, decide_False]

theorem field_eq_spec (b : input_buffer) (k : Str) : b.field k = field_spec b.lines k := by
  unfold input_buffer.field
  rw [field_loop_eq b k b.count 0 (by simp)]
  simp

theorem first_match_some_length (lines : List Str) (k l : Str)
    (h : first_match lines k = some l) : k.length + 1 < l.length := by
  have := List.find?_some h
  simp only [decide_eq_true_eq] at this
  exact this.1

theorem field_spec_eq_nil_iff (lines : List Str) (k : Str) :
    field_spec lines k = [] ↔ first_match lines k = none := by
  unfold field_spec
  cases hm : first_match lines k with
  | none => simp
  | some l =>
    have := first_match_some_length _ _ _ hm
    simp only [List.drop_eq_nil_iff, reduceCtorEq, iff_false, not_le]
    exact this

theorem field_ne_nil_line (b : input_buffer) (k : Str) (h : b.field k ≠ []) :
    ∃ l, first_match b.lines k = some l ∧ l ∈ b.lines ∧ (k ++ ['=']) <+: l := by
  rw [field_eq_spec] at h
  have hm : first_match b.lines k ≠ none := fun hc => h ((field_spec_eq_nil_iff _ _).mpr hc)
  obtain ⟨l, hl⟩ := Option.ne_none_iff_exists'.mp hm
  refine ⟨l, hl, List.mem_of_find?_eq_some hl, ?_⟩
  have := List.find?_some hl
  simp only [decide_eq_true_eq] at this
  exact this.2

/-- A field that is not empty is not changed by lines added to the buffer. -/
theorem field_append_of_ne_nil (b : input_buffer) (extra : List Str) (k : Str)
    (h : b.field k ≠ []) : (input_buffer.mk (b.lines ++ extra)).field k = b.field k := by
  rw [field_eq_spec, field_eq_spec] at *
  have hm : first_match b.lines k ≠ none := fun hc => h ((field_spec_eq_nil_iff _ _).mpr hc)
  obtain ⟨l, hl⟩ := Option.ne_none_iff_exists'.mp hm
  unfold field_spec
  have : first_match (b.lines ++ extra) k = some l := by
    unfold first_match at *
    rw [List.find?_append, hl]
    rfl
  rw [this, hl]

/-- A field that is empty is looked up in the lines added to the buffer. -/
theorem field_append_of_nil (b : input_buffer) (extra : List Str) (k : Str)
    (h : b.field k = []) :
    (input_buffer.mk (b.lines ++ extra)).field k = (input_buffer.mk extra).field k := by
  rw [field_eq_spec] at h
  rw [field_eq_spec, field_eq_spec]
  have hm := (field_spec_eq_nil_iff _ _).mp h
  unfold field_spec
  have : first_match (b.lines ++ extra) k = first_match extra k := by
    unfold first_match at *
    rw [List.find?_append, hm]
    rfl
  rw [this]

theorem field_double_congr (strtod : Str → ℚ) (b b1 : input_buffer) (k : Str) (i : Nat)
    (h : b1.field k = b.field k) : b1.field_double strtod k i = b.field_double strtod k i := by
  simp [input_buffer.field_double, h]

theorem buffer_eq_of_lines (b : input_buffer) (l : List Str) (h : b.lines = l) :
    b = input_buffer.mk l := by
  cases b
  simp only at h
  rw [h]

/-! ## The sub-fields of a value -/

theorem extract_field_skip_none (s : Str) (i : Nat) : extract_field_skip s i none = none := by
  cases i <;> rfl

theorem splitOn_no_comma (t : Str) (h : ∀ c ∈ t, c ∉ [',']) : t.splitOn ',' = [t] := by
  unfold List.splitOn
  apply List.splitOnP_eq_single
  intro x hx hxe
  exact h x hx (by simpa using hxe)

theorem splitOn_first_comma (pre post : Str) (h : ∀ c ∈ pre, c ∉ [',']) :
    (pre ++ ',' :: post).splitOn ',' = pre :: post.splitOn ',' := by
  unfold List.splitOn
  apply List.splitOnP_first
  · intro x hx hxe
    exact h x hx (by simpa using hxe)
  · simp

/-- The result of `extract_field` when the scan starts at position `cp`. -/
theorem extract_field_from (s : Str) (i cp : Nat) (hcp : cp ≤ s.length) :
    (match extract_field_skip s i (some cp) with
      | none => []
      | some q => substr s q ((find_first_of s [','] q).getD s.length - q)) =
      ((s.drop cp).splitOn ',').getD i [] := by
  induction i generalizing cp with
  | zero =>
    simp only [extract_field_skip]
    cases hf : find_first_of s [','] cp with
    | none =>
      rw [find_first_of, find_from_none] at hf
      rw [splitOn_no_comma _ hf]
      simp [substr]
    | some j =>
      obtain ⟨pre, c, post, h1, h2, h3, h4⟩ := find_from_some _ _ _ _ hf
      have hc : c = ',' := by simpa using h3
      subst hc
      rw [h1, splitOn_first_comma _ _ h2]
      simp [substr, h1, h4]
  | succ i ih =>
    simp only [extract_field_skip]
    cases hf : find_first_of s [','] cp with
    | none =>
      rw [find_first_of, find_from_none] at hf
      rw [splitOn_no_comma _ hf]
      simp [extract_field_skip_none]
    | some j =>
      obtain ⟨pre, c, post, h1, h2, h3, h4⟩ := find_from_some _ _ _ _ hf
      have hc : c = ',' := by simpa using h3
      subst hc
      have hlen : s.length = cp + (pre.length + 1 + post.length) := by
        have := congrArg List.length h1
        simp at this
        omega
      have hd : s.drop (j + 1) = post := by
        have : s.drop (cp + (pre.length + 1)) = (s.drop cp).drop (pre.length + 1) := by
          rw [List.drop_drop]
        rw [h4, show cp + pre.length + 1 = cp + (pre.length + 1) by omega, this, h1]
        simp
      simp only [Option.map_some']
      rw [ih (j + 1) (by omega), hd, h1, splitOn_first_comma _ _ h2]
      simp

theorem extract_field_eq (s : Str) (i : Nat) :
    extract_field s i = (s.splitOn ',').getD i [] := by
  have h := extract_field_from s i 0 (Nat.zero_le _)
  simp only [List.drop_zero] at h
  rw [← h]
  unfold extract_field
  cases hs : extract_field_skip s i (some 0) with
  | none => rfl
  | some q =>
    cases s with
    | nil =>
      simp [substr]
    | cons c cs => simp

/-- The label at position `n` of a list of four labels is empty for `n ≥ 4`. -/
theorem extract_field_beyond (labels : Str) (n : Nat) (h : (labels.splitOn ',').length ≤ n) :
    extract_field labels n = [] := by
  rw [extract_field_eq, List.getD_eq_getElem?_getD, List.getElem?_eq_none h]
  rfl

theorem splitOnP_length_le (p : Char → Bool) (l : Str) :
    (l.splitOnP p).length ≤ l.length + 1 := by
  induction l with
  | nil => simp
  | cons c cs ih =>
    rw [List.splitOnP_cons]
    split
    · simp only [List.length_cons]
      omega
    · simp only [List.length_modifyHead, List.length_cons]
      omega

theorem field_string_beyond (tmp : input_buffer) (key : Str) (t : Nat)
    (h : ((tmp.field key).splitOn ',').length ≤ t) : tmp.field_string key t = [] := by
  simp [input_buffer.field_string, extract_field_beyond _ _ h, c_str]

/-! ## The comment scan -/

theorem sublines_no_break (t : Str) (h : ∀ c ∈ t, c ∉ CR_BREAKS) : sublines t = [t] := by
  unfold sublines
  apply List.splitOnP_eq_single
  intro x hx hxe
  exact h x hx (by simpa using hxe)

theorem sublines_first_break (pre post : Str) (c : Char) (h : ∀ x ∈ pre, x ∉ CR_BREAKS)
    (hc : c ∈ CR_BREAKS) : sublines (pre ++ c :: post) = pre :: sublines post := by
  unfold sublines
  apply List.splitOnP_first
  · intro x hx hxe
    exact h x hx (by simpa using hxe)
  · simpa using hc

/-- The loop over the positions of the comment field processes its sub-lines in
order, whenever the iteration bound is at least the number of characters left
plus one. -/
theorem cr_loop_eq_lines (st : Str) (n brk : Nat) (s : cr_state) (hb : brk ≤ st.length)
    (hn : st.length + 1 ≤ brk + n) :
    cr_loop st n brk s = cr_lines (sublines (st.drop brk)) s := by
  induction n generalizing brk s with
  | zero => omega
  | succ n ih =>
    unfold cr_loop
    cases hf : find_first_of st CR_BREAKS brk with
    | none =>
      rw [find_first_of, find_from_none] at hf
      rw [sublines_no_break _ hf]
      have hcl : substr st brk (st.length + 1 - brk) = st.drop brk := by
        simp only [substr]
        apply List.take_of_length_le
        simp
        omega
      simp only [Option.getD_none, hcl, cr_lines]
      cases cr_line (st.drop brk) s with
      | error e => rfl
      | ok s1 =>
        simp only
        rw [if_neg (by omega)]
    | some j =>
      obtain ⟨pre, c, post, h1, h2, h3, h4⟩ := find_from_some _ _ _ _ hf
      have hlen : st.length = brk + (pre.length + 1 + post.length) := by
        have := congrArg List.length h1
        simp at this
        omega
      have hd : st.drop (j + 1) = post := by
        have : st.drop (brk + (pre.length + 1)) = (st.drop brk).drop (pre.length + 1) := by
          rw [List.drop_drop]
        rw [h4, show brk + pre.length + 1 = brk + (pre.length + 1) by omega, this, h1]
        simp
      have hcl : substr st brk (j - brk) = pre := by
        simp [substr, h1, h4]
      rw [h1, sublines_first_break _ _ _ h2 h3]
      simp only [Option.getD_some, hcl, cr_lines]
      cases cr_line pre s with
      | error e => rfl
      | ok s1 =>
        simp only
        rw [if_pos (by omega), ih (j + 1) s1 (by omega) (by omega), hd]

theorem inject_loop_extends (tmp : input_buffer) (key : Str) (n t : Nat)
    (buf b1 : input_buffer) (h : inject_loop tmp key n t buf = .ok b1) :
    ∃ extra, b1.lines = buf.lines ++ extra := by
  induction n generalizing t buf with
  | zero => simp [inject_loop] at h
  | succ n ih =>
    unfold inject_loop at h
    simp only at h
    split at h
    · cases h
      exact ⟨[], by simp⟩
    · obtain ⟨extra, he⟩ := ih _ _ h
      exact ⟨tmp.field_string key t :: extra, by simp [he, input_buffer.add_line]⟩

theorem cr_line_extends (cline : Str) (s s1 : cr_state) (h : cr_line cline s = .ok s1) :
    ∃ extra, s1.buf.lines = s.buf.lines ++ extra := by
  unfold cr_line at h
  split at h
  · split at h
    · cases h
    · split at h
      · simp only at h
        split at h
        · cases h
        · rename_i b1 hb1
          cases h
          exact inject_loop_extends _ _ _ _ _ _ hb1
      · split at h
        · simp only at h
          split at h
          · cases h
          · rename_i b1 hb1
            cases h
            exact inject_loop_extends _ _ _ _ _ _ hb1
        · cases h
          exact ⟨_, rfl⟩
  · cases h
    exact ⟨[], by simp⟩

theorem cr_lines_extends (l : List Str) (s s1 : cr_state) (h : cr_lines l s = .ok s1) :
    ∃ extra, s1.buf.lines = s.buf.lines ++ extra := by
  induction l generalizing s with
  | nil =>
    cases h
    exact ⟨[], by simp⟩
  | cons c rest ih =>
    unfold cr_lines at h
    split at h
    · cases h
    · rename_i s2 hs2
      obtain ⟨e1, h1⟩ := cr_line_extends _ _ _ hs2
      obtain ⟨e2, h2⟩ := ih _ h
      exact ⟨e1 ++ e2, by rw [h2, h1, List.append_assoc]⟩

/-- The sub-lines that `process_comment` runs through. -/
theorem process_comment_eq (buf : input_buffer) :
    process_comment buf =
      if (buf.field "CR".toList).isEmpty then .ok (buf, [])
      else
        match cr_lines (sublines (buf.field "CR".toList)) ⟨buf, ⟨[]⟩, 1, []⟩ with
        | .error e => .error e
        | .ok s => .ok (s.buf, s.out) := by
  unfold process_comment
  simp only
  rw [cr_loop_eq_lines _ _ 0 _ (Nat.zero_le _) (by omega)]
  simp

/-- The comment scan only appends lines to the record buffer. -/
theorem process_comment_extends (buf buf1 : input_buffer) (comments : List (List Tok))
    (h : process_comment buf = .ok (buf1, comments)) :
    ∃ extra, buf1.lines = buf.lines ++ extra := by
  rw [process_comment_eq] at h
  split at h
  · cases h
    exact ⟨[], by simp⟩
  · split at h
    · cases h
    · rename_i s hs
      cases h
      exact cr_lines_extends _ _ _ hs

theorem cr_line_plain (cline : Str) (s : cr_state) (h : ¬ "BSBHDR".toList <+: cline) :
    cr_line cline s = .ok { s with out := s.out ++ [[Tok.str "! ".toList, Tok.str cline]] } := by
  unfold cr_line
  rw [if_neg]
  intro hc
  apply h
  rw [List.prefix_iff_eq_take]
  simpa [substr] using hc.symm

theorem cr_lines_plain (pre rest : List Str) (s : cr_state)
    (h : ∀ l ∈ pre, ¬ "BSBHDR".toList <+: l) :
    ∃ o, cr_lines (pre ++ rest) s = cr_lines rest { s with out := o } := by
  induction pre generalizing s with
  | nil => exact ⟨s.out, rfl⟩
  | cons c cs ih =>
    have hc := cr_line_plain c s (h c (List.mem_cons_self _ _))
    obtain ⟨o, ho⟩ := ih { s with out := s.out ++ [[Tok.str "! ".toList, Tok.str c]] }
      (fun l hl => h l (List.mem_cons_of_mem _ hl))
    refine ⟨o, ?_⟩
    rw [List.cons_append, cr_lines, hc]
    exact ho

theorem cr_line_sk (buf : input_buffer) (addn : Int) (o : List (List Tok)) :
    cr_line "BSBHDR KNP/SK=5.0".toList ⟨buf, ⟨[]⟩, addn, o⟩ =
      .ok ⟨buf.add_line "SK=5.0".toList, ⟨["KNP=SK=5.0".toList]⟩, addn, o⟩ := by
  rfl

/-! ## The loops end before their iteration bound -/

theorem digitChar_value (k : Nat) (h : k < 10) : (Nat.digitChar k).toNat - 48 = k := by
  interval_cases k <;> rfl

theorem digitChar_ne_eq (k : Nat) (h : k < 10) : Nat.digitChar k ≠ '=' := by
  interval_cases k <;> decide

theorem toDigitsCore_value (fuel n : Nat) (ds : Str) (h : n < fuel) :
    (Nat.toDigitsCore 10 fuel n ds).foldl (fun a c => a * 10 + (c.toNat - 48)) 0 =
      ds.foldl (fun a c => a * 10 + (c.toNat - 48)) n := by
  induction fuel generalizing n ds with
  | zero => omega
  | succ fuel ih =>
    unfold Nat.toDigitsCore
    simp only
    split
    · rename_i h0
      have hn : n < 10 := by
        rcases Nat.div_eq_zero_iff (by norm_num : 0 < 10) |>.mp h0 with h1
        exact h1
      simp only [List.foldl_cons, Nat.zero_mul, Nat.zero_add]
      rw [digitChar_value _ (Nat.mod_lt _ (by norm_num)), Nat.mod_eq_of_lt hn]
    · rename_i h0
      have hlt : n / 10 < fuel := by
        have : n / 10 < n := Nat.div_lt_self (by
          rcases Nat.eq_zero_or_pos n with h1 | h1
          · subst h1; simp at h0
          · exact h1) (by norm_num)
        omega
      rw [ih (n / 10) _ hlt]
      simp only [List.foldl_cons]
      rw [digitChar_value _ (Nat.mod_lt _ (by norm_num)), Nat.div_add_mod']

theorem toDigits_value (n : Nat) : digits_value (Nat.toDigits 10 n) = n := by
  unfold digits_value Nat.toDigits
  rw [toDigitsCore_value _ _ _ (Nat.lt_succ_self n)]
  rfl

theorem toDigitsCore_no_eq (fuel n : Nat) (ds : Str) (h : '=' ∉ ds) :
    '=' ∉ Nat.toDigitsCore 10 fuel n ds := by
  induction fuel generalizing n ds with
  | zero => simpa [Nat.toDigitsCore] using h
  | succ fuel ih =>
    unfold Nat.toDigitsCore
    simp only
    have hd : '=' ∉ Nat.digitChar (n % 10) :: ds := by
      simp only [List.mem_cons, not_or]
      exact ⟨(digitChar_ne_eq _ (Nat.mod_lt _ (by norm_num))).symm, h⟩
    split
    · exact hd
    · exact ih _ _ hd

theorem toDigits_no_eq (n : Nat) : '=' ∉ Nat.toDigits 10 n :=
  toDigitsCore_no_eq _ _ _ (by simp)

theorem itoa_nat (n : Nat) : itoa (n : Int) = Nat.toDigits 10 n := by
  unfold itoa
  rw [if_neg (by omega)]
  simp

theorem takeWhile_before_eq (ds x : Str) (h : '=' ∉ ds) :
    (ds ++ '=' :: x).takeWhile (fun c => c ≠ '=') = ds := by
  induction ds with
  | nil => simp
  | cons c cs ih =>
    simp only [List.mem_cons, not_or] at h
    have hc : c ≠ '=' := fun hc => h.1 hc.symm
    have := ih h.2
    simpa [List.takeWhile_cons, hc] using this

/-- A line begins with `P<n>=` for at most one number `n`. -/
theorem numbered_key_unique (P l : Str) (a b : Nat)
    (ha : (P ++ itoa (a : Int) ++ ['=']) <+: l) (hb : (P ++ itoa (b : Int) ++ ['=']) <+: l) :
    a = b := by
  rw [itoa_nat] at ha hb
  obtain ⟨x, hx⟩ := ha
  obtain ⟨y, hy⟩ := hb
  have h1 : Nat.toDigits 10 a ++ '=' :: x = Nat.toDigits 10 b ++ '=' :: y := by
    have := hx.trans hy.symm
    simpa [List.append_assoc] using this
  have h2 := congrArg (List.takeWhile (fun c => c ≠ '=')) h1
  rw [takeWhile_before_eq _ _ (toDigits_no_eq a), takeWhile_before_eq _ _ (toDigits_no_eq b)] at h2
  have h3 := congrArg digits_value h2
  rwa [toDigits_value, toDigits_value] at h3

/-- The numbered fields `P1`, ..., `Pm` that are all present need `m` lines. -/
theorem numbered_fields_bounded (b : input_buffer) (P : Str) (m : Nat)
    (h : ∀ j : Nat, 1 ≤ j → j ≤ m → b.field (P ++ itoa (j : Int)) ≠ []) : m ≤ b.count := by
  let f : Nat → Str := fun j => (first_match b.lines (P ++ itoa ((j + 1 : Nat) : Int))).getD []
  have hf : ∀ j, j < m → f j ∈ b.lines ∧ (P ++ itoa ((j + 1 : Nat) : Int) ++ ['=']) <+: f j := by
    intro j hj
    obtain ⟨l, h1, h2, h3⟩ := field_ne_nil_line b _ (h (j + 1) (by omega) (by omega))
    have : f j = l := by simp only [f, h1, Option.getD_some]
    rw [this]
    exact ⟨h2, h3⟩
  have hnd : ((List.range m).map f).Nodup := by
    apply List.Nodup.map_on _ (List.nodup_range m)
    intro x hx y hy hxy
    have h1 := (hf x (List.mem_range.mp hx)).2
    have h2 := (hf y (List.mem_range.mp hy)).2
    rw [hxy] at h1
    have := numbered_key_unique P (f y) _ _ h1 h2
    omega
  have hsub : (List.range m).map f ⊆ b.lines := by
    intro l hl
    obtain ⟨j, hj, rfl⟩ := List.mem_map.mp hl
    exact (hf j (List.mem_range.mp hj)).1
  have := (List.subperm_of_subset hnd hsub).length_le
  simpa [input_buffer.count] using this

theorem add_loop_fuel (b : input_buffer) (n cnt : Nat) (h : add_loop b n cnt = .error .fuel) :
    ∀ j : Nat, cnt ≤ j → j < cnt + n → b.field ("ADD".toList ++ itoa (j : Int)) ≠ [] := by
  induction n generalizing cnt with
  | zero => intro j h1 h2; omega
  | succ n ih =>
    unfold add_loop at h
    simp only at h
    split at h
    · cases h
    · rename_i hne
      split at h
      · rename_i e he
        cases h
        intro j h1 h2
        rcases Nat.eq_or_lt_of_le h1 with rfl | h3
        · simpa [List.isEmpty_iff] using hne
        · exact ih (cnt + 1) he j (by omega) (by omega)
      · cases h

theorem add_loop_no_fuel (b : input_buffer) : add_loop b (b.count + 1) 1 ≠ .error .fuel := by
  intro h
  have := numbered_fields_bounded b "ADD".toList (b.count + 1)
    (fun j h1 h2 => add_loop_fuel b _ _ h j h1 (by omega))
  omega

theorem to_long_no_fuel (d : ℚ) : to_long d ≠ .error .fuel := by
  unfold to_long
  simp only
  split <;> simp

theorem ref_loop_fuel (strtod : Str → ℚ) (b : input_buffer) (n cnt : Nat) (s : ref_state)
    (h : ref_loop strtod b n cnt s = .error .fuel) :
    ∀ j : Nat, cnt ≤ j → j < cnt + n → b.field ("C".toList ++ itoa (j : Int)) ≠ [] := by
  induction n generalizing cnt s with
  | zero => intro j h1 h2; omega
  | succ n ih =>
    unfold ref_loop at h
    simp only at h
    split at h
    · cases h
    · rename_i hne
      split at h
      · rename_i e he
        cases h
        exact absurd he (to_long_no_fuel _)
      · rename_i e he
        cases h
        exact absurd he (to_long_no_fuel _)
      · split at h
        · rename_i e he
          cases h
          intro j h1 h2
          rcases Nat.eq_or_lt_of_le h1 with rfl | h3
          · simpa [List.isEmpty_iff] using hne
          · exact ih (cnt + 1) _ he j (by omega) (by omega)
        · cases h

theorem ref_loop_no_fuel (strtod : Str → ℚ) (b : input_buffer) (s : ref_state) :
    ref_loop strtod b (b.count + 1) 1 s ≠ .error .fuel := by
  intro h
  have := numbered_fields_bounded b "C".toList (b.count + 1)
    (fun j h1 h2 => ref_loop_fuel strtod b _ _ s h j h1 (by omega))
  omega

theorem ply_loop_fuel (strtod : Str → ℚ) (b : input_buffer) (n cnt : Nat)
    (h : ply_loop strtod b n cnt = .error .fuel) :
    ∀ j : Nat, cnt ≤ j → j < cnt + n → b.field ("B".toList ++ itoa (j : Int)) ≠ [] := by
  induction n generalizing cnt with
  | zero => intro j h1 h2; omega
  | succ n ih =>
    unfold ply_loop at h
    simp only at h
    split at h
    · cases h
    · rename_i hne
      split at h
      · rename_i e he
        cases h
        intro j h1 h2
        rcases Nat.eq_or_lt_of_le h1 with rfl | h3
        · simpa [List.isEmpty_iff] using hne
        · exact ih (cnt + 1) he j (by omega) (by omega)
      · cases h

theorem ply_loop_no_fuel (strtod : Str → ℚ) (b : input_buffer) :
    ply_loop strtod b (b.count + 1) 1 ≠ .error .fuel := by
  intro h
  have := numbered_fields_bounded b "B".toList (b.count + 1)
    (fun j h1 h2 => ply_loop_fuel strtod b _ _ h j h1 (by omega))
  omega

theorem inject_loop_ok (tmp : input_buffer) (key : Str) (n t : Nat) (buf : input_buffer)
    (h1 : t ≤ ((tmp.field key).splitOn ',').length)
    (h2 : ((tmp.field key).splitOn ',').length + 1 ≤ t + n) :
    ∃ b1, inject_loop tmp key n t buf = .ok b1 := by
  induction n generalizing t buf with
  | zero => omega
  | succ n ih =>
    unfold inject_loop
    simp only
    split
    · exact ⟨buf, rfl⟩
    · rename_i hne
      have hlt : t < ((tmp.field key).splitOn ',').length := by
        by_contra hc
        exact hne (by rw [field_string_beyond _ _ _ (by omega)]; rfl)
      exact ih (t + 1) _ (by omega) (by omega)

theorem inject_loop_start_ok (tmp : input_buffer) (key : Str) (buf : input_buffer) :
    ∃ b1, inject_loop tmp key ((tmp.field key).length + 2) 0 buf = .ok b1 := by
  apply inject_loop_ok _ _ _ _ _ (Nat.zero_le _)
  have := splitOnP_length_le (fun c => c == ',') (tmp.field key)
  unfold List.splitOn
  omega

theorem skip_spaces_no_fuel (s : Str) : skip_spaces s ≠ .error .fuel := by
  induction s with
  | nil => simp [skip_spaces]
  | cons c cs ih =>
    unfold skip_spaces
    split
    · exact ih
    · simp

theorem cr_line_no_fuel (cline : Str) (s : cr_state) : cr_line cline s ≠ .error .fuel := by
  intro h
  unfold cr_line at h
  split at h
  · split at h
    · rename_i e he
      cases h
      exact skip_spaces_no_fuel _ he
    · split at h
      · simp only at h
        obtain ⟨b1, hb1⟩ := inject_loop_start_ok
          (s.tmp.add_line ("KNP=".toList ++ substr_from _ 4)) "KNP".toList s.buf
        rw [hb1] at h
        cases h
      · split at h
        · simp only at h
          obtain ⟨b1, hb1⟩ := inject_loop_start_ok
            (s.tmp.add_line ("BSB=".toList ++ substr_from _ 4)) "BSB".toList s.buf
          rw [hb1] at h
          cases h
        · cases h
  · cases h

theorem cr_lines_no_fuel (l : List Str) (s : cr_state) : cr_lines l s ≠ .error .fuel := by
  induction l generalizing s with
  | nil => simp [cr_lines]
  | cons c rest ih =>
    intro h
    unfold cr_lines at h
    split at h
    · rename_i e he
      cases h
      exact cr_line_no_fuel _ _ he
    · exact ih _ h

theorem process_comment_no_fuel (buf : input_buffer) :
    process_comment buf ≠ .error .fuel := by
  intro h
  rw [process_comment_eq] at h
  split at h
  · cases h
  · split at h
    · rename_i e he
      cases h
      exact cr_lines_no_fuel _ _ he
    · cases h

theorem chart_name_no_fuel (buf : input_buffer) : chart_name buf ≠ .error .fuel := by
  intro h
  unfold chart_name at h
  simp only at h
  split at h
  · cases h
  · split at h <;> cases h

theorem fp_to_long_no_fuel (d : fp) : fp_to_long d ≠ .error .fuel := by
  cases d with
  | num q => exact to_long_no_fuel q
  | nzero => exact fun h => nomatch h
  | inf s => exact fun h => nomatch h
  | nan => exact fun h => nomatch h

theorem calc_du_no_fuel (sc : Int) (dx dy : ℚ) : calc_du sc dx dy ≠ .error .fuel := by
  unfold calc_du
  split
  · exact fp_to_long_no_fuel _
  · simp

/-- The conversion of a record is never cut off by an iteration bound of the
model: every loop of `convert_section` ends by itself. -/
theorem convert_section_no_fuel (strtod : Str → ℚ) (g : Int × Int) (buf : input_buffer)
    (opt : command_line_info) : convert_section strtod g buf opt ≠ .error .fuel := by
  intro h
  unfold convert_section at h
  simp only [bind, Except.bind, pure, Except.pure] at h
  split at h
  · rename_i e he
    cases h
    exact chart_name_no_fuel _ he
  split at h
  · rename_i e he
    cases h
    exact to_long_no_fuel _ he
  split at h
  · rename_i e he
    cases h
    exact calc_du_no_fuel _ _ _ he
  split at h
  · rename_i e he
    cases h
    exact to_long_no_fuel _ he
  split at h
  · rename_i e he
    cases h
    exact to_long_no_fuel _ he
  split at h
  · rename_i e he
    cases h
    exact process_comment_no_fuel _ he
  rename_i pc hpc
  obtain ⟨buf1, comments⟩ := pc
  simp only at h
  split at h
  · rename_i e he
    cases h
    exact add_loop_no_fuel _ he
  split at h
  · rename_i e he
    cases h
    exact ref_loop_no_fuel _ _ _ he
  rename_i rr hrr
  obtain ⟨refs, rs⟩ := rr
  simp only at h
  split at h
  · rename_i e he
    cases h
    exact ply_loop_no_fuel _ _ he
  cases h

/-! ## The file written for a record -/

theorem convert_section_ok (strtod : Str → ℚ) (g : Int × Int) (buf : input_buffer)
    (opt : command_line_info) (out : out_file)
    (h : convert_section strtod g buf opt = .ok out) :
    ∃ mc sc du p i buf1 comments adds refs rs plys,
      chart_name buf = .ok mc ∧
      buf.field_long strtod "SC".toList 0 = .ok sc ∧
      calc_du sc (buf.field_double strtod "DX".toList 0)
        (buf.field_double strtod "DY".toList 0) = .ok du ∧
      buf.field_long strtod "PR".toList 0 = .ok p ∧
      buf.field_long strtod "DU".toList 0 = .ok i ∧
      process_comment buf = .ok (buf1, comments) ∧
      add_loop buf1 (buf1.count + 1) 1 = .ok adds ∧
      ref_loop strtod buf1 (buf1.count + 1) 1 (ref_init g) = .ok (refs, rs) ∧
      ply_loop strtod buf1 (buf1.count + 1) 1 = .ok plys ∧
      out.name = file_name opt mc ∧
      out.lines =
        [Tok.str "! Created by mc2bsbh ".toList, Tok.str VERSION,
          Tok.str " - Use at your own risk!".toList] :: comments ++
        header_lines strtod buf1 sc du (clamp_projection p)
          (extract_field PR_LABELS (to_unsigned (clamp_projection p)))
          (extract_field UN_LABELS (to_unsigned (clamp_unit i)))
          (buf.field_double strtod "DX".toList 0) (buf.field_double strtod "DY".toList 0) ++
        adds ++ [[Tok.str "OST/1".toList]] ++ refs ++ [cph_line rs] ++ plys ++
        [dtm_line strtod buf1] := by
  unfold convert_section at h
  simp only [bind, Except.bind, pure, Except.pure] at h
  split at h
  · cases h
  rename_i mc hmc
  split at h
  · cases h
  rename_i sc hsc
  split at h
  · cases h
  rename_i du hdu
  split at h
  · cases h
  rename_i p hp
  split at h
  · cases h
  rename_i i hi
  split at h
  · cases h
  rename_i pc hpc
  obtain ⟨buf1, comments⟩ := pc
  simp only at h
  split at h
  · cases h
  rename_i adds hadds
  split at h
  · cases h
  rename_i rr hrr
  obtain ⟨refs, rs⟩ := rr
  simp only at h
  split at h
  · cases h
  rename_i plys hplys
  cases h
  exact ⟨mc, sc, du, p, i, buf1, comments, adds, refs, rs, plys, hmc, hsc, hdu, hp, hi, hpc,
    hadds, hrr, hplys, rfl, rfl⟩

theorem to_long_nonneg (d : ℚ) (hd : 0 ≤ d) :
    to_long d = if ⌊d⌋ ≤ LONG_MAX then .ok ⌊d⌋ else .error .undefined := by
  have h1 : Int.tdiv d.num d.den = ⌊d⌋ := by
    rw [Rat.floor_def, Int.tdiv_eq_ediv (Rat.num_nonneg.mpr hd) (by positivity)]
  have h2 : LONG_MIN ≤ ⌊d⌋ := le_trans (by decide) (Int.floor_nonneg.mpr hd)
  simp only [to_long, h1, h2, true_and]

/-- Off the guard of line 292 the derived value is 0. -/
theorem calc_du_off_guard (sc : Int) (dx dy : ℚ) (h : ¬ du_guard sc dx dy) :
    calc_du sc dx dy = .ok 0 := by
  unfold calc_du
  exact if_neg h

/-! ## Field lookup (C1 to C3) -/

/-- C1: `field(k)` returns the text after `k=` in the first line, in buffer order,
that is strictly longer than `length(k)+1` and begins with `k` immediately
followed by `=`, and the empty string when no line qualifies; on the buffer
whose only line is `X=` the field `X` is empty, and a bare `k=` line never
hides a later line. -/
theorem field_returns_first_match (b : input_buffer) (k : Str) :
    b.field k = field_spec b.lines k ∧
    (input_buffer.mk ["X=".toList]).field "X".toList = [] ∧
    ∀ pre post : List Str,
      (input_buffer.mk (pre ++ [k ++ ['=']] ++ post)).field k =
        (input_buffer.mk (pre ++ post)).field k := by
  refine ⟨field_eq_spec b k, by decide, ?_⟩
  intro pre post
  rw [field_eq_spec, field_eq_spec]
  simp [field_spec, first_match, List.find?_append, List.find?_cons]

/-- C2, what fails: `field_string` hands the sub-field through `c_str()`, so on
the value `a<NUL>b` it returns `a`, which is not the element `a<NUL>b` of the
split value. -/
theorem field_string_cut_at_nul :
    (input_buffer.mk [['K', '=', 'a', Char.ofNat 0, 'b']]).field_string ['K'] 0 = ['a'] ∧
    (((input_buffer.mk [['K', '=', 'a', Char.ofNat 0, 'b']]).field ['K']).splitOn ',').getD 0 []
      = ['a', Char.ofNat 0, 'b'] := by
  decide

/-- C2, amended: `extract_field(s, i)` is the `i`-th element of `s` split on `,`
and is empty when `s` has fewer than `i+1` sub-fields, also for the empty `s`;
`field_string(key, i)` is that element of the raw value of `key` cut at its
first NUL character, so the element itself when it holds no NUL. -/
theorem extract_field_is_split_element (s : Str) (i : Nat) (b : input_buffer) (key : Str) :
    extract_field s i = (s.splitOn ',').getD i [] ∧
    ((s.splitOn ',').length ≤ i → extract_field s i = []) ∧
    extract_field [] i = [] ∧
    b.field_string key i = c_str (((b.field key).splitOn ',').getD i []) ∧
    (Char.ofNat 0 ∉ ((b.field key).splitOn ',').getD i [] →
      b.field_string key i = ((b.field key).splitOn ',').getD i []) := by
  refine ⟨extract_field_eq s i, ?_, ?_, ?_, ?_⟩
  · intro h
    rw [extract_field_eq, List.getD_eq_getElem?_getD, List.getElem?_eq_none h]
    rfl
  · rw [extract_field_eq]
    cases i <;> simp
  · simp [input_buffer.field_string, extract_field_eq]
  · intro h
    simp only [input_buffer.field_string, extract_field_eq, c_str]
    rw [List.takeWhile_eq_self_iff]
    intro c hc
    simp only [ne_eq, decide_eq_true_eq]
    rintro rfl
    exact h hc

/-- C2, an instance: the value `a,b,,d` of the key `K` has the sub-fields `a`,
`b`, the empty string and `d`, and nothing at index 4. -/
theorem extract_field_is_split_element_witness :
    extract_field "a,b,,d".toList 4 = [] ∧
    (input_buffer.mk ["K=a,b,,d".toList]).field_string "K".toList 3 = "d".toList :=
  have h := extract_field_is_split_element "a,b,,d".toList 4
    (input_buffer.mk ["K=a,b,,d".toList]) "K".toList
  have h3 := extract_field_is_split_element "a,b,,d".toList 3
    (input_buffer.mk ["K=a,b,,d".toList]) "K".toList
  ⟨h.2.1 (by decide), (h3.2.2.2.2 (by decide)).trans (by decide)⟩

/-- C3: when no line of the buffer begins with `key=`, or the sub-field `index`
of its value is empty or missing, `field_double` returns `NAN_D` and
`field_long` returns `NAN_L`, and both are -2147483647. -/
theorem absent_field_gives_sentinel (strtod : Str → ℚ) (b : input_buffer) (key : Str)
    (index : Nat)
    (h : (∀ l ∈ b.lines, ¬ (key ++ ['=']) <+: l) ∨
      ((b.field key).splitOn ',').getD index [] = []) :
    b.field_double strtod key index = input_buffer.NAN_D ∧
    b.field_long strtod key index = .ok input_buffer.NAN_L ∧
    input_buffer.NAN_D = -2147483647 ∧ input_buffer.NAN_L = -2147483647 := by
  have he : extract_field (b.field key) index = [] := by
    rcases h with h | h
    · have hf : b.field key = [] := by
        rw [field_eq_spec, field_spec, first_match, List.find?_eq_none.mpr]
        intro l hl
        simp [h l hl]
      rw [hf, extract_field_eq]
      cases index <;> simp
    · rw [extract_field_eq, h]
  have hd : b.field_double strtod key index = input_buffer.NAN_D := by
    simp [input_buffer.field_double, he]
  refine ⟨hd, ?_, ?_, ?_⟩
  · rw [input_buffer.field_long, hd]
    decide!
  · simp [input_buffer.NAN_D, input_buffer.NAN_L]
  · decide

/-- C3, an instance: the second sub-field of `A=1,,3` is empty. -/
theorem absent_field_gives_sentinel_witness :
    (input_buffer.mk ["A=1,,3".toList]).field_double strtod_dec "A".toList 1 = -2147483647 ∧
    (input_buffer.mk ["A=1,,3".toList]).field_long strtod_dec "B".toList 0 =
      .ok (-2147483647) :=
  ⟨(absent_field_gives_sentinel strtod_dec (input_buffer.mk ["A=1,,3".toList]) "A".toList 1
      (Or.inr (by decide))).1.trans (by decide!),
   (absent_field_gives_sentinel strtod_dec (input_buffer.mk ["A=1,,3".toList]) "B".toList 0
      (Or.inl (by decide))).2.1⟩

/-! ## Comment commands (C4 to C6) -/

/-- C4, the failing record: the comment block holds the commands
`BSBHDR KNP/SK=1` and `BSBHDR KNP/TA=2`.  The scratch buffer `tmp` is not reset
between commands, so the second command injects the sub-fields of the first
one again: the buffer receives `SK=1` twice and never `TA=2`. -/
theorem second_knp_command_repeats_first :
    process_comment ⟨["[t]".toList, "CR=BSBHDR KNP/SK=1\nBSBHDR KNP/TA=2".toList]⟩ =
      .ok (⟨["[t]".toList, "CR=BSBHDR KNP/SK=1\nBSBHDR KNP/TA=2".toList,
             "SK=1".toList, "SK=1".toList]⟩, []) := by
  decide

/-- C5, what fails: the record has the line `SK=,5`, whose value `,5` is not
empty, and the comment `BSBHDR KNP/SK=5.0`.  The first sub-field of `,5` is
empty, so `SK` counts as absent and the file carries the default `SK=0.0`,
neither `,5` nor `5.0`. -/
theorem sk_with_empty_first_subfield_gets_default :
    (input_buffer.mk ["[t]".toList, "SK=,5".toList,
      "CR=BSBHDR KNP/SK=5.0".toList]).field "SK".toList = ",5".toList ∧
    pi_line "UNKNOWN".toList "UNKNOWN".toList "0.0".toList "90.0".toList ∈
      emitted strtod_dec (0, 0)
        ⟨["[t]".toList, "SK=,5".toList, "CR=BSBHDR KNP/SK=5.0".toList]⟩ no_options := by
  decide!

/-- C5, amended: the conversion is never cut off by an iteration bound, and in
every file that is written, (1) when the record has no `SK` field of its own,
the command `BSBHDR KNP/SK=5.0` is a sub-line of the comment field and no
sub-line before it begins with `BSBHDR`, the value after `SK=` is `5.0`;
(2) when the record has an `SK` field `v` of its own, the value after `SK=` is
`v`, or the default `0.0` when the first sub-field of `v` is empty or reads as
the sentinel: what the comment injects has no effect. -/
theorem sk_override_first_match_wins (strtod : Str → ℚ) (g : Int × Int)
    (buf : input_buffer) (opt : command_line_info) :
    convert_section strtod g buf opt ≠ .error .fuel ∧
    ∀ out, convert_section strtod g buf opt = .ok out →
      (∀ pre post : List Str, buf.field "SK".toList = [] →
        sublines (buf.field "CR".toList) = pre ++ "BSBHDR KNP/SK=5.0".toList :: post →
        (∀ l ∈ pre, ¬ "BSBHDR".toList <+: l) →
        strtod "5.0".toList ≠ input_buffer.NAN_D →
        ∃ pi sp ta, pi_line pi sp "5.0".toList ta ∈ out.lines) ∧
      (buf.field "SK".toList ≠ [] →
        ∃ pi sp ta, pi_line pi sp
          (if buf.field_double strtod "SK".toList 0 = input_buffer.NAN_D then "0.0".toList
            else buf.field "SK".toList) ta ∈ out.lines) := by
  refine ⟨convert_section_no_fuel strtod g buf opt, ?_⟩
  intro out h
  obtain ⟨mc, sc, du, p, i, buf1, comments, adds, refs, rs, plys, -, -, -, -, -, hpc, -,
    -, -, -, hl⟩ := convert_section_ok strtod g buf opt out h
  have hmem : pi_line (field_or strtod buf1 "PI".toList "UNKNOWN".toList)
      (field_or strtod buf1 "SP".toList "UNKNOWN".toList)
      (field_or strtod buf1 "SK".toList "0.0".toList)
      (field_or strtod buf1 "TA".toList "90.0".toList) ∈ out.lines := by
    rw [hl]
    simp [header_lines, pi_line]
  constructor
  · intro pre post hsk hcr hpre hs
    refine ⟨field_or strtod buf1 "PI".toList "UNKNOWN".toList,
      field_or strtod buf1 "SP".toList "UNKNOWN".toList,
      field_or strtod buf1 "TA".toList "90.0".toList, ?_⟩
    have hsk1 : buf1.field "SK".toList = "5.0".toList := by
      rw [process_comment_eq] at hpc
      split at hpc
      · rename_i hemp
        rw [List.isEmpty_iff.mp hemp] at hcr
        have h1 := congrArg List.length hcr
        have : pre = [] := by
          cases pre with
          | nil => rfl
          | cons a t => simp [sublines] at h1
        subst this
        simp [sublines] at hcr
      · rw [hcr] at hpc
        obtain ⟨o, ho⟩ := cr_lines_plain pre ("BSBHDR KNP/SK=5.0".toList :: post)
          ⟨buf, ⟨[]⟩, 1, []⟩ hpre
        rw [ho, cr_lines, cr_line_sk] at hpc
        simp only at hpc
        split at hpc
        · cases hpc
        · rename_i s hs2
          cases hpc
          obtain ⟨extra, he⟩ := cr_lines_extends _ _ _ hs2
          have hb : s.buf = input_buffer.mk (buf.lines ++ ("SK=5.0".toList :: extra)) := by
            apply buffer_eq_of_lines
            rw [he]
            simp [input_buffer.add_line]
          rw [hb, field_append_of_nil _ _ _ hsk, field_eq_spec]
          simp only [field_spec, first_match, List.find?_cons]
          rfl
    have hd : buf1.field_double strtod "SK".toList 0 = strtod "5.0".toList := by
      simp only [input_buffer.field_double, hsk1]
      rfl
    have : field_or strtod buf1 "SK".toList "0.0".toList = "5.0".toList := by
      simp only [field_or, hd, if_neg hs, hsk1]
    rw [← this]
    exact hmem
  · intro hsk
    refine ⟨field_or strtod buf1 "PI".toList "UNKNOWN".toList,
      field_or strtod buf1 "SP".toList "UNKNOWN".toList,
      field_or strtod buf1 "TA".toList "90.0".toList, ?_⟩
    obtain ⟨extra, he⟩ := process_comment_extends _ _ _ hpc
    have hb : buf1 = input_buffer.mk (buf.lines ++ extra) := buffer_eq_of_lines _ _ he
    have hf : buf1.field "SK".toList = buf.field "SK".toList := by
      rw [hb]
      exact field_append_of_ne_nil _ _ _ hsk
    have : field_or strtod buf1 "SK".toList "0.0".toList =
        (if buf.field_double strtod "SK".toList 0 = input_buffer.NAN_D then "0.0".toList
          else buf.field "SK".toList) := by
      simp only [field_or, field_double_congr strtod buf buf1 _ 0 hf, hf]
    rw [← this]
    exact hmem

/-- C5, two instances: a record without `SK` whose comment is a note followed by
the command gets `SK=5.0`; a record with `SK=7` and the same command keeps
`SK=7`. -/
theorem sk_override_first_match_wins_witness :
    (∃ pi sp ta, pi_line pi sp "5.0".toList ta ∈ emitted strtod_dec (0, 0)
      ⟨["[t]".toList, "CR=a note\tBSBHDR KNP/SK=5.0".toList]⟩ no_options) ∧
    (∃ pi sp ta, pi_line pi sp "7".toList ta ∈ emitted strtod_dec (0, 0)
      ⟨["[t]".toList, "SK=7".toList, "CR=BSBHDR KNP/SK=5.0".toList]⟩ no_options) := by
  have h1 : convert_section strtod_dec (0, 0)
      ⟨["[t]".toList, "CR=a note\tBSBHDR KNP/SK=5.0".toList]⟩ no_options =
      .ok ⟨"t.hdr".toList, emitted strtod_dec (0, 0)
        ⟨["[t]".toList, "CR=a note\tBSBHDR KNP/SK=5.0".toList]⟩ no_options⟩ := by
    decide!
  have h2 : convert_section strtod_dec (0, 0)
      ⟨["[t]".toList, "SK=7".toList, "CR=BSBHDR KNP/SK=5.0".toList]⟩ no_options =
      .ok ⟨"t.hdr".toList, emitted strtod_dec (0, 0)
        ⟨["[t]".toList, "SK=7".toList, "CR=BSBHDR KNP/SK=5.0".toList]⟩ no_options⟩ := by
    decide!
  constructor
  · exact ((sk_override_first_match_wins strtod_dec (0, 0) _ no_options).2 _ h1).1
      ["a note".toList] [] (by decide) (by decide) (by decide) (by decide!)
  · have := ((sk_override_first_match_wins strtod_dec (0, 0) _ no_options).2 _ h2).2 (by decide)
    have hd : (input_buffer.mk ["[t]".toList, "SK=7".toList,
        "CR=BSBHDR KNP/SK=5.0".toList]).field_double strtod_dec "SK".toList 0 ≠
        input_buffer.NAN_D := by decide!
    rw [if_neg hd] at this
    exact this

/-- C6, the failing record: it has no SC and no PP line and its comment is
`BSBHDR KNP/SC=50000,PP=10`.  The scale is read before the comment is processed,
so the KNP line carries the sentinel -2147483647 after `SC=`, while `PP=10` is
taken from the injected line. -/
theorem injected_scale_is_not_emitted :
    [Tok.str "KNP/SC=".toList, Tok.num (-2147483647), Tok.str ",GD=".toList, Tok.str [],
      Tok.str ",PR=".toList, Tok.str "UNKNOWN".toList, Tok.str ",PP=".toList,
      Tok.str "10".toList] ∈
    emitted strtod_dec (0, 0)
      ⟨["[t]".toList, "CR=BSBHDR KNP/SC=50000,PP=10".toList]⟩ no_options := by
  decide!

/-! ## Code translation, resolution and phase (C7 to C10) -/

/-- C7, the failing record: the projection code -1 passes the test
`projection>3`, is converted to the `unsigned int` 4294967295, and the label
written after `PR=` is the empty string.  So does every negative `long` code
other than the sentinel; the codes 0 to 3, the codes above 3 and the sentinel
give the labels of the claim. -/
theorem negative_projection_code_gives_no_label :
    [Tok.str "KNP/SC=".toList, Tok.num (-2147483647), Tok.str ",GD=".toList, Tok.str [],
      Tok.str ",PR=".toList, Tok.str [], Tok.str ",PP=".toList,
      Tok.str "UNKNOWN".toList] ∈
      emitted strtod_dec (0, 0) ⟨["[t]".toList, "PR=-1".toList]⟩ no_options ∧
    (∀ p : Int, LONG_MIN ≤ p → p < 0 → p ≠ input_buffer.NAN_L →
      extract_field PR_LABELS (to_unsigned (clamp_projection p)) = []) ∧
    extract_field PR_LABELS (to_unsigned (clamp_projection 0)) = "UNKNOWN".toList ∧
    extract_field PR_LABELS (to_unsigned (clamp_projection 1)) = "MERCATOR".toList ∧
    extract_field PR_LABELS (to_unsigned (clamp_projection 2)) =
      "TRANSVERSE MERCATOR".toList ∧
    extract_field PR_LABELS (to_unsigned (clamp_projection 3)) =
      "LAMBERT CONFORMAL CONIC".toList ∧
    (∀ p : Int, 3 < p →
      extract_field PR_LABELS (to_unsigned (clamp_projection p)) = "UNKNOWN".toList) ∧
    extract_field PR_LABELS (to_unsigned (clamp_projection input_buffer.NAN_L)) =
      "UNKNOWN".toList := by
  refine ⟨by decide!, ?_, by decide, by decide, by decide, by decide, ?_, by decide⟩
  · intro p h1 h2 h3
    apply extract_field_beyond
    have hl : (PR_LABELS.splitOn ',').length = 4 := by decide
    have hc : clamp_projection p = p := by
      unfold clamp_projection
      rw [if_neg]
      rintro (h | h)
      · exact h3 h
      · omega
    rw [hl, hc]
    unfold to_unsigned UINT_MOD
    unfold LONG_MIN at h1
    omega
  · intro p hp
    have hc : clamp_projection p = 0 := by
      unfold clamp_projection
      rw [if_pos (Or.inr hp)]
    rw [hc]
    decide

/-- C8, the failing record: the unit code 4 is not brought back to 0 (the
projection code is), and the label written after `UN=` is the empty string.  So
does every `long` code outside 0..3 other than the sentinel; the codes 0 to 3
and the sentinel give the labels of the claim. -/
theorem unit_code_four_gives_no_label :
    [Tok.str "    UN=".toList, Tok.str [], Tok.str ",SD=".toList, Tok.str "UNKNOWN".toList] ∈
      emitted strtod_dec (0, 0) ⟨["[t]".toList, "DU=4".toList]⟩ no_options ∧
    (∀ i : Int, LONG_MIN ≤ i → i ≤ LONG_MAX → i < 0 ∨ 3 < i → i ≠ input_buffer.NAN_L →
      extract_field UN_LABELS (to_unsigned (clamp_unit i)) = []) ∧
    extract_field UN_LABELS (to_unsigned (clamp_unit 0)) = "UNKNOWN".toList ∧
    extract_field UN_LABELS (to_unsigned (clamp_unit 1)) = "METERS".toList ∧
    extract_field UN_LABELS (to_unsigned (clamp_unit 2)) = "FEET".toList ∧
    extract_field UN_LABELS (to_unsigned (clamp_unit 3)) = "FATHOMS".toList ∧
    extract_field UN_LABELS (to_unsigned (clamp_unit input_buffer.NAN_L)) =
      "UNKNOWN".toList := by
  refine ⟨by decide!, ?_, by decide, by decide, by decide, by decide, by decide⟩
  intro i h1 h2 h3 h4
  apply extract_field_beyond
  have hl : (UN_LABELS.splitOn ',').length = 4 := by decide
  have hc : clamp_unit i = i := by
    unfold clamp_unit
    rw [if_neg h4]
  rw [hl, hc]
  unfold to_unsigned UINT_MOD
  unfold LONG_MIN at h1
  unfold LONG_MAX at h2
  omega

/-- The double nearest to 2.54, the literal of the derivation, is a little
above it; the doubles nearest to 0.1 and 0.4 likewise. -/
theorem round_double_literals :
    round_double false 2.54 = .num (2859785763380265 / 1125899906842624) ∧
    round_double false (1 / 10) = .num (3602879701896397 / 36028797018963968) ∧
    round_double false (4 / 10) = .num (3602879701896397 / 9007199254740992) := by
  decide!

/-- The derivation at the example of the spec, `SC=50000` with both pixel
pitches the double of 0.1, gives 12700, and the file carries it; at `SC=25000`
with both pixel pitches the double of 0.4 the quotient computed in doubles is
1587.5 and the value is 1588, although the quotient of these doubles in exact
arithmetic is below 1587.5. -/
theorem calc_du_examples :
    nu_line [] [] [] 12700 ∈ emitted strtod_nearest (0, 0)
      ⟨["[t]".toList, "SC=50000".toList, "DX=0.1".toList, "DY=0.1".toList]⟩ no_options ∧
    nu_line [] [] [] 1588 ∈ emitted strtod_nearest (0, 0)
      ⟨["[t]".toList, "SC=25000".toList, "DX=0.4".toList, "DY=0.4".toList]⟩ no_options ∧
    strtod_nearest "0.4".toList = 3602879701896397 / 9007199254740992 ∧
    calc_du 50000 (3602879701896397 / 36028797018963968)
      (3602879701896397 / 36028797018963968) = .ok 12700 ∧
    fp_div (fp_mul (.num 25000) (round_double false 2.54))
      (fp_mul (fp_div (fp_add (.num (3602879701896397 / 9007199254740992))
        (.num (3602879701896397 / 9007199254740992))) (.num 2)) (.num 100)) =
      .num (3175 / 2) ∧
    calc_du 25000 (3602879701896397 / 9007199254740992)
      (3602879701896397 / 9007199254740992) = .ok 1588 ∧
    du_quotient 25000 (3602879701896397 / 9007199254740992)
      (3602879701896397 / 9007199254740992) < 3175 / 2 := by
  refine ⟨by decide!, by decide!, by decide!, by decide!, by decide!, by decide!, ?_⟩
  norm_num [du_quotient]

/-- C9, what fails: for `SC=-100`, `DX=0.5`, `DY=0.5` (all present and
non-zero) the quotient is -5.08, whose nearest integer is -5; the source
computes the double nearest to -5.08, adds 0.5, and the cast
`(long int)(q + 0.5)` truncates the sum (about -4.58) toward zero: the file
carries `DU=-4`. -/
theorem negative_quotient_is_truncated :
    nu_line [] [] [] (-4) ∈ emitted strtod_dec (0, 0)
      ⟨["[t]".toList, "SC=-100".toList, "DX=0.5".toList, "DY=0.5".toList]⟩ no_options ∧
    (input_buffer.mk ["[t]".toList, "SC=-100".toList, "DX=0.5".toList,
      "DY=0.5".toList]).field_long strtod_dec "SC".toList 0 = .ok (-100) ∧
    (input_buffer.mk ["[t]".toList, "SC=-100".toList, "DX=0.5".toList,
      "DY=0.5".toList]).field_double strtod_dec "DX".toList 0 = 1 / 2 ∧
    (input_buffer.mk ["[t]".toList, "SC=-100".toList, "DX=0.5".toList,
      "DY=0.5".toList]).field_double strtod_dec "DY".toList 0 = 1 / 2 ∧
    du_guard (-100) (1 / 2) (1 / 2) ∧
    fp_div (fp_mul (.num (-100 : Int)) (round_double false 2.54))
      (fp_mul (fp_div (fp_add (.num (1 / 2)) (.num (1 / 2))) (.num 2)) (.num 100)) =
      round_double false (-127 / 25) ∧
    calc_du (-100) (1 / 2) (1 / 2) = .ok (-4) ∧
    du_quotient (-100) (1 / 2) (1 / 2) = -127 / 25 ∧
    round (du_quotient (-100) (1 / 2) (1 / 2)) = -5 := by
  have hq : du_quotient (-100) (1 / 2) (1 / 2) = -127 / 25 := by
    norm_num [du_quotient]
  refine ⟨by decide!, by decide!, by decide!, by decide!, ?_, by decide!, by decide!, hq, ?_⟩
  · refine ⟨by decide, by decide, by norm_num, ?_, by norm_num, ?_⟩ <;>
      norm_num [input_buffer.NAN_D, input_buffer.NAN_L]
  · rw [hq, round_eq, Int.floor_eq_iff]
    norm_num

/-- C10, the failing record: it has no tie point.  The product of the initial
`maxlon` and `minlon` is -181 * 181 < 0, so the marker is decided by the
uninitialised `maxlonx` and `minlonx`: `CPH/180.0` when they hold 0 and 1,
`CPH/0.0` when they hold 0 and 0. -/
theorem no_tie_point_marker_is_indeterminate :
    [Tok.str "CPH/180.0".toList] ∈ emitted strtod_dec (0, 1) ⟨["[t]".toList]⟩ no_options ∧
    [Tok.str "CPH/0.0".toList] ∉ emitted strtod_dec (0, 1) ⟨["[t]".toList]⟩ no_options ∧
    [Tok.str "CPH/0.0".toList] ∈ emitted strtod_dec (0, 0) ⟨["[t]".toList]⟩ no_options := by
  decide!

/-! ## The buffer as an append-only log (C18, C19) -/

/-- C18: `append_line(text)` returns false if and only if the buffer is empty,
and then leaves it empty; otherwise it returns true, the last line becomes its
old content followed by a newline and `text`, the number of lines is unchanged
and every other line is unchanged. -/
theorem append_line_joins_last_line (b : input_buffer) (text : Str) :
    ((b.append_line text).1 = false ↔ b.empty = true) ∧
    (b.empty = true → (b.append_line text).2 = b ∧ (b.append_line text).2.empty = true) ∧
    (b.empty = false →
      (b.append_line text).1 = true ∧
      (b.append_line text).2.count = b.count ∧
      (b.append_line text).2.line (b.count - 1) = b.line (b.count - 1) ++ '\n' :: text ∧
      ∀ n, n ≠ b.count - 1 → (b.append_line text).2.line n = b.line n) := by
  unfold input_buffer.append_line
  cases he : b.empty
  · have hpos : 0 < b.lines.length := by
      cases hb : b.lines with
      | nil => simp [input_buffer.empty, hb] at he
      | cons a t => simp
    simp only [Bool.false_eq_true, if_false, false_iff, not_false_eq_true, true_and,
      false_implies, true_implies]
    refine ⟨by simp, by simp [input_buffer.count], ?_, ?_⟩
    · simp [input_buffer.line, input_buffer.count, hpos, List.getD_eq_getElem?_getD]
    · intro n hn
      simp only [input_buffer.line, input_buffer.count, List.length_set,
        List.getD_eq_getElem?_getD]
      have hn2 : b.lines.length - 1 ≠ n := fun h => hn (by simp [input_buffer.count, h])
      rw [List.getElem?_set_ne hn2]
  · simp [he]

/-- C18, two instances: on the empty buffer nothing is appended; on a buffer of
two lines the text joins the second line. -/
theorem append_line_joins_last_line_witness :
    ((input_buffer.mk []).append_line "x".toList).2 = input_buffer.mk [] ∧
    ((input_buffer.mk ["a".toList, "b".toList]).append_line "x".toList).2.line 1 =
      "b\nx".toList :=
  ⟨((append_line_joins_last_line (input_buffer.mk []) "x".toList).2.1 (by decide)).1,
   ((append_line_joins_last_line (input_buffer.mk ["a".toList, "b".toList])
      "x".toList).2.2 (by decide)).2.2.1.trans (by decide)⟩

/-- C19: the buffer is an append-only log read with a first-match rule: a field
that is not empty keeps its value when a line is added, and an empty field `k`
takes the value `v` of an added line `k=v` with `v` not empty. -/
theorem add_line_keeps_first_match (b : input_buffer) (k l v : Str) :
    (b.field k ≠ [] → (b.add_line l).field k = b.field k) ∧
    (b.field k = [] → v ≠ [] → (b.add_line (k ++ '=' :: v)).field k = v) := by
  constructor
  · intro h
    exact field_append_of_ne_nil b [l] k h
  · intro h hv
    unfold input_buffer.add_line
    rw [field_append_of_nil b _ k h, field_eq_spec]
    have hpos : 0 < v.length := List.length_pos.mpr hv
    simp [field_spec, first_match, List.find?_cons, hpos]

/-- C19, two instances: `SK=1` is not displaced by an added `SK=2`, and an added
`TA=3` is found when there was no `TA`. -/
theorem add_line_keeps_first_match_witness :
    ((input_buffer.mk ["SK=1".toList]).add_line "SK=2".toList).field "SK".toList =
      "1".toList ∧
    ((input_buffer.mk ["SK=1".toList]).add_line "TA=3".toList).field "TA".toList =
      "3".toList :=
  ⟨((add_line_keeps_first_match (input_buffer.mk ["SK=1".toList]) "SK".toList
      "SK=2".toList []).1 (by decide)).trans (by decide),
   (add_line_keeps_first_match (input_buffer.mk ["SK=1".toList]) "TA".toList []
      "3".toList).2 (by decide) (by decide)⟩

/-! ## The lines of the file (C11 to C14) -/

theorem cr_line_out (cline : Str) (s s1 : cr_state) (h : cr_line cline s = .ok s1) :
    ∃ X, s1.out = s.out ++ X ∧ ∀ x ∈ X, x.length = 2 := by
  unfold cr_line at h
  split at h
  · split at h
    · cases h
    · split at h
      · simp only at h
        split at h
        · cases h
        · cases h
          exact ⟨[], by simp⟩
      · split at h
        · simp only at h
          split at h
          · cases h
          · cases h
            exact ⟨[], by simp⟩
        · cases h
          exact ⟨[], by simp⟩
  · cases h
    exact ⟨[[Tok.str "! ".toList, Tok.str cline]], rfl, by simp⟩

theorem cr_lines_out (l : List Str) (s s1 : cr_state) (h : cr_lines l s = .ok s1) :
    ∃ X, s1.out = s.out ++ X ∧ ∀ x ∈ X, x.length = 2 := by
  induction l generalizing s with
  | nil =>
    cases h
    exact ⟨[], by simp⟩
  | cons c rest ih =>
    unfold cr_lines at h
    split at h
    · cases h
    · rename_i s2 hs2
      obtain ⟨X1, h1, h1l⟩ := cr_line_out _ _ _ hs2
      obtain ⟨X2, h2, h2l⟩ := ih _ h
      refine ⟨X1 ++ X2, by rw [h2, h1, List.append_assoc], ?_⟩
      intro x hx
      rcases List.mem_append.mp hx with hx | hx
      · exact h1l x hx
      · exact h2l x hx

/-- The comment lines written to the file have two operands each. -/
theorem process_comment_out (buf buf1 : input_buffer) (comments : List (List Tok))
    (h : process_comment buf = .ok (buf1, comments)) : ∀ x ∈ comments, x.length = 2 := by
  rw [process_comment_eq] at h
  split at h
  · cases h
    simp
  · split at h
    · cases h
    · rename_i s hs
      cases h
      obtain ⟨X, hX, hl⟩ := cr_lines_out _ _ _ hs
      simp only [List.nil_append] at hX
      rw [hX]
      exact hl

/-- Without a comment field the buffer is left as it is. -/
theorem process_comment_no_cr (buf : input_buffer) (h : buf.field "CR".toList = []) :
    process_comment buf = .ok (buf, []) := by
  rw [process_comment_eq, h]
  rfl

theorem add_loop_lines (b : input_buffer) (n cnt : Nat) (adds : List (List Tok))
    (h : add_loop b n cnt = .ok adds) : ∀ x ∈ adds, x.length = 1 := by
  induction n generalizing cnt adds with
  | zero => simp [add_loop] at h
  | succ n ih =>
    unfold add_loop at h
    simp only at h
    split at h
    · cases h
      simp
    · split at h
      · cases h
      · rename_i rest hrest
        cases h
        intro x hx
        rcases List.mem_cons.mp hx with rfl | hx
        · rfl
        · exact ih _ _ hrest x hx

theorem ref_loop_lines (strtod : Str → ℚ) (b : input_buffer) (n cnt : Nat) (s rs : ref_state)
    (refs : List (List Tok)) (h : ref_loop strtod b n cnt s = .ok (refs, rs)) :
    ∀ x ∈ refs, x.length = 10 := by
  induction n generalizing cnt s refs with
  | zero => simp [ref_loop] at h
  | succ n ih =>
    unfold ref_loop at h
    simp only at h
    split at h
    · cases h
      simp
    · split at h
      · cases h
      · cases h
      · split at h
        · cases h
        · rename_i rest s3 hrest
          cases h
          intro x hx
          rcases List.mem_cons.mp hx with rfl | hx
          · rfl
          · exact ih _ _ _ hrest x hx

/-- The boundary loop writes the line of `B1`, `B2`, ... up to the first field
that is empty. -/
theorem ply_loop_spec (strtod : Str → ℚ) (b : input_buffer) (n cnt : Nat)
    (plys : List (List Tok)) (h : ply_loop strtod b n cnt = .ok plys) :
    ∃ k, (∀ j : Nat, cnt ≤ j → j < cnt + k → b.field ("B".toList ++ itoa (j : Int)) ≠ []) ∧
      b.field ("B".toList ++ itoa ((cnt + k : Nat) : Int)) = [] ∧
      plys = (List.range k).map (fun i => ply_line strtod b (cnt + i)) := by
  induction n generalizing cnt plys with
  | zero => simp [ply_loop] at h
  | succ n ih =>
    unfold ply_loop at h
    simp only at h
    split at h
    · rename_i hemp
      cases h
      refine ⟨0, ?_, ?_, rfl⟩
      · intro j h1 h2
        omega
      · simpa [List.isEmpty_iff] using hemp
    · rename_i hne
      split at h
      · cases h
      · rename_i rest hrest
        cases h
        obtain ⟨k, hk1, hk2, hk3⟩ := ih _ _ hrest
        refine ⟨k + 1, ?_, ?_, ?_⟩
        · intro j h1 h2
          rcases Nat.eq_or_lt_of_le h1 with rfl | h3
          · simpa [List.isEmpty_iff] using hne
          · exact hk1 j (by omega) (by omega)
        · rw [show cnt + (k + 1) = cnt + 1 + k by omega]
          exact hk2
        · rw [List.range_succ_eq_map, List.map_cons, List.map_map, hk3]
          congr 1
          apply List.map_congr_left
          intro i _
          simp only [Function.comp]
          rw [show cnt + 1 + i = cnt + (i + 1) by omega]

theorem filter_eq_nil_of_length (L : List (List Tok)) (m : Nat) (hm : m ≠ 6)
    (h : ∀ x ∈ L, x.length = m) : L.filter is_ply_line = [] := by
  rw [List.filter_eq_nil_iff]
  intro x hx
  simp [is_ply_line, h x hx, hm]

theorem filter_ply_lines (strtod : Str → ℚ) (b : input_buffer) (k c : Nat) :
    ((List.range k).map (fun i => ply_line strtod b (c + i))).filter is_ply_line =
      (List.range k).map (fun i => ply_line strtod b (c + i)) := by
  rw [List.filter_eq_self]
  intro x hx
  obtain ⟨i, _, rfl⟩ := List.mem_map.mp hx
  rfl

/-- C11: the conversion is never cut off by an iteration bound, and in every
file that is written the polygon lines are, in increasing order, exactly one
line `PLY/n,lat,lon'` for each `n = 1..k`, where the fields `B1..Bk` of the
buffer (as it stands after the comment commands; the record itself when it has
no comment field) are all present and `B(k+1)` is not, `lat` and `lon` are the
first two sub-fields of `Bn`, and `lon'` is `lon - 360` when `lon > 180` and
`lon` otherwise.  They stand right before the last line of the file. -/
theorem polygon_lines_one_per_boundary_field (strtod : Str → ℚ) (g : Int × Int)
    (buf : input_buffer) (opt : command_line_info) :
    convert_section strtod g buf opt ≠ .error .fuel ∧
    (∀ out, convert_section strtod g buf opt = .ok out →
      ∃ buf1 comments k,
        process_comment buf = .ok (buf1, comments) ∧
        (buf.field "CR".toList = [] → buf1 = buf) ∧
        (∀ n : Nat, 1 ≤ n → n ≤ k → buf1.field ("B".toList ++ itoa (n : Int)) ≠ []) ∧
        buf1.field ("B".toList ++ itoa ((k + 1 : Nat) : Int)) = [] ∧
        out.lines.filter is_ply_line =
          (List.range k).map (fun i => ply_line strtod buf1 (1 + i)) ∧
        ∃ front, out.lines = front ++
          (List.range k).map (fun i => ply_line strtod buf1 (1 + i)) ++
          [dtm_line strtod buf1]) ∧
    (∀ lon : ℚ, (180 < lon → norm_lon lon = lon - 360) ∧ (lon ≤ 180 → norm_lon lon = lon)) := by
  refine ⟨convert_section_no_fuel strtod g buf opt, ?_, ?_⟩
  · intro out h
    obtain ⟨mc, sc, du, p, i, buf1, comments, adds, refs, rs, plys, -, -, -, -, -, hpc, hadd,
      href, hply, -, hl⟩ := convert_section_ok strtod g buf opt out h
    obtain ⟨k, hk1, hk2, hk3⟩ := ply_loop_spec _ _ _ _ _ hply
    refine ⟨buf1, comments, k, hpc, ?_, ?_, ?_, ?_, ?_⟩
    · intro hcr
      have := process_comment_no_cr buf hcr
      rw [this] at hpc
      cases hpc
      rfl
    · intro n h1 h2
      exact hk1 n h1 (by omega)
    · rw [show k + 1 = 1 + k by omega]
      exact hk2
    · rw [hl, ← hk3]
      have hc := filter_eq_nil_of_length comments 2 (by decide)
        (process_comment_out _ _ _ hpc)
      have ha := filter_eq_nil_of_length adds 1 (by decide) (add_loop_lines _ _ _ _ hadd)
      have hr := filter_eq_nil_of_length refs 10 (by decide)
        (ref_loop_lines _ _ _ _ _ _ _ href)
      have hp : plys.filter is_ply_line = plys := by
        rw [hk3]
        exact filter_ply_lines strtod buf1 k 1
      have hcph : is_ply_line (cph_line rs) = false := by
        unfold cph_line
        split <;> rfl
      have hh : (header_lines strtod buf1 sc du (clamp_projection p)
          (extract_field PR_LABELS (to_unsigned (clamp_projection p)))
          (extract_field UN_LABELS (to_unsigned (clamp_unit i)))
          (buf.field_double strtod "DX".toList 0)
          (buf.field_double strtod "DY".toList 0)).filter is_ply_line = [] := by
        simp [header_lines, is_ply_line]
      have hd : is_ply_line (dtm_line strtod buf1) = false := rfl
      have hcr : is_ply_line [Tok.str "! Created by mc2bsbh ".toList, Tok.str VERSION,
          Tok.str " - Use at your own risk!".toList] = false := rfl
      have ho : is_ply_line [Tok.str "OST/1".toList] = false := rfl
      simp only [List.filter_cons, List.filter_append, hc, ha, hr, hp, hcph, hh, hd, hcr, ho,
        List.filter_nil, List.append_nil, List.nil_append, Bool.false_eq_true, if_false]
    · rw [hl, ← hk3]
      exact ⟨_, rfl⟩
  · intro lon
    unfold norm_lon
    constructor
    · intro h
      rw [if_pos h]
    · intro h
      rw [if_neg (not_lt.mpr h)]

/-- C11, an instance: `B1=10,190`, `B2=20,170` and, after the gap at `B3`, a
`B4`: two polygon lines, the longitude 190 written as -170. -/
theorem polygon_lines_one_per_boundary_field_witness :
    (emitted strtod_dec (0, 0)
      ⟨["[t]".toList, "B1=10,190".toList, "B2=20,170".toList, "B4=1,2".toList]⟩
      no_options).filter is_ply_line =
      [[Tok.str "PLY/".toList, Tok.num 1, Tok.str ",".toList, Tok.dbl 9 10,
        Tok.str ",".toList, Tok.dbl 9 (-170)],
       [Tok.str "PLY/".toList, Tok.num 2, Tok.str ",".toList, Tok.dbl 9 20,
        Tok.str ",".toList, Tok.dbl 9 170]] ∧
    ∃ buf1 comments k,
      process_comment
        ⟨["[t]".toList, "B1=10,190".toList, "B2=20,170".toList, "B4=1,2".toList]⟩ =
        .ok (buf1, comments) ∧
      (emitted strtod_dec (0, 0)
        ⟨["[t]".toList, "B1=10,190".toList, "B2=20,170".toList, "B4=1,2".toList]⟩
        no_options).filter is_ply_line =
        (List.range k).map (fun i => ply_line strtod_dec buf1 (1 + i)) := by
  have hc : convert_section strtod_dec (0, 0)
      ⟨["[t]".toList, "B1=10,190".toList, "B2=20,170".toList, "B4=1,2".toList]⟩ no_options =
      .ok ⟨"t.hdr".toList, emitted strtod_dec (0, 0)
        ⟨["[t]".toList, "B1=10,190".toList, "B2=20,170".toList, "B4=1,2".toList]⟩
        no_options⟩ := by
    decide!
  refine ⟨by decide!, ?_⟩
  obtain ⟨buf1, comments, k, h1, -, -, -, h5, -⟩ :=
    (polygon_lines_one_per_boundary_field strtod_dec (0, 0) _ no_options).2.1 _ hc
  exact ⟨buf1, comments, k, h1, h5⟩

theorem clamp_projection_eq_two (p : Int) : clamp_projection p = 2 ↔ p = 2 := by
  unfold clamp_projection input_buffer.NAN_L
  split <;> omega

/-- C12, what fails: with `PR=2`, `LON0=15` and the explicit `PP=UNKNOWN` the
file carries the number 15 after `PP=`, not the text supplied; with `PR=1` and
the explicit `PP=,45`, whose first sub-field is empty, it carries `UNKNOWN`. -/
theorem explicit_pp_is_not_always_emitted :
    knp_line (-2147483647) [] "TRANSVERSE MERCATOR".toList (Tok.dbl 6 15) ∈
      emitted strtod_dec (0, 0)
        ⟨["[t]".toList, "PR=2".toList, "LON0=15".toList, "PP=UNKNOWN".toList]⟩ no_options ∧
    (input_buffer.mk ["[t]".toList, "PR=1".toList, "PP=,45".toList]).field "PP".toList =
      ",45".toList ∧
    knp_line (-2147483647) [] "MERCATOR".toList (Tok.str "UNKNOWN".toList) ∈
      emitted strtod_dec (0, 0)
        ⟨["[t]".toList, "PR=1".toList, "PP=,45".toList]⟩ no_options := by
  decide!

/-- C12, amended: the conversion is never cut off by an iteration bound, and in
every file that is written, with `PP` and `LON0` looked up in the buffer as it
stands after the comment commands and `PP` counted as supplied when its first
sub-field does not read as the sentinel: a supplied `PP` other than the text
`UNKNOWN` is written after `PP=`; otherwise the number `LON0` is written when
the projection code of the record is 2 and `LON0` is present, and the text
`UNKNOWN` when it is not. -/
theorem pp_is_lon0_for_transverse_mercator (strtod : Str → ℚ) (g : Int × Int)
    (buf : input_buffer) (opt : command_line_info) :
    convert_section strtod g buf opt ≠ .error .fuel ∧
    ∀ out, convert_section strtod g buf opt = .ok out →
      ∃ buf1 comments p sc gd pr pp,
        process_comment buf = .ok (buf1, comments) ∧
        buf.field_long strtod "PR".toList 0 = .ok p ∧
        knp_line sc gd pr pp ∈ out.lines ∧
        (buf1.field_double strtod "PP".toList 0 ≠ input_buffer.NAN_D →
          buf1.field "PP".toList ≠ "UNKNOWN".toList →
          pp = Tok.str (buf1.field "PP".toList)) ∧
        (buf1.field_double strtod "PP".toList 0 = input_buffer.NAN_D ∨
            buf1.field "PP".toList = "UNKNOWN".toList →
          p = 2 → buf1.field_double strtod "LON0".toList 0 ≠ input_buffer.NAN_D →
          pp = Tok.dbl 6 (buf1.field_double strtod "LON0".toList 0)) ∧
        (buf1.field_double strtod "PP".toList 0 = input_buffer.NAN_D ∨
            buf1.field "PP".toList = "UNKNOWN".toList →
          ¬ (p = 2 ∧ buf1.field_double strtod "LON0".toList 0 ≠ input_buffer.NAN_D) →
          pp = Tok.str "UNKNOWN".toList) := by
  refine ⟨convert_section_no_fuel strtod g buf opt, ?_⟩
  intro out h
  obtain ⟨mc, sc, du, p, i, buf1, comments, adds, refs, rs, plys, -, -, -, hp, -, hpc, -,
    -, -, -, hl⟩ := convert_section_ok strtod g buf opt out h
  refine ⟨buf1, comments, p, sc, buf1.field "GD".toList,
    extract_field PR_LABELS (to_unsigned (clamp_projection p)),
    (if buf1.field_double strtod "LON0".toList 0 ≠ input_buffer.NAN_D ∧
        clamp_projection p = 2 ∧
        field_or strtod buf1 "PP".toList "UNKNOWN".toList = "UNKNOWN".toList
      then Tok.dbl 6 (buf1.field_double strtod "LON0".toList 0)
      else Tok.str (field_or strtod buf1 "PP".toList "UNKNOWN".toList)),
    hpc, hp, ?_, ?_, ?_, ?_⟩
  · rw [hl]
    simp [header_lines, knp_line]
  · intro h1 h2
    have hf : field_or strtod buf1 "PP".toList "UNKNOWN".toList = buf1.field "PP".toList := by
      unfold field_or
      rw [if_neg h1]
    rw [hf, if_neg]
    exact fun hc => h2 hc.2.2
  · intro h1 h2 h3
    have hf : field_or strtod buf1 "PP".toList "UNKNOWN".toList = "UNKNOWN".toList := by
      unfold field_or
      rcases h1 with h1 | h1
      · rw [if_pos h1]
      · split
        · rfl
        · exact h1
    rw [if_pos ⟨h3, (clamp_projection_eq_two p).mpr h2, hf⟩]
  · intro h1 h2
    have hf : field_or strtod buf1 "PP".toList "UNKNOWN".toList = "UNKNOWN".toList := by
      unfold field_or
      rcases h1 with h1 | h1
      · rw [if_pos h1]
      · split
        · rfl
        · exact h1
    rw [hf, if_neg]
    exact fun hc => h2 ⟨(clamp_projection_eq_two p).mp hc.2.1, hc.1⟩

/-- C12, three instances: `PR=2` with `LON0=15` and no `PP` gives the number 15;
with `PP=45.5` as well it gives `45.5`; `PR=1` with `LON0=15` gives `UNKNOWN`. -/
theorem pp_is_lon0_for_transverse_mercator_witness :
    knp_line (-2147483647) [] "TRANSVERSE MERCATOR".toList (Tok.dbl 6 15) ∈
      emitted strtod_dec (0, 0) ⟨["[t]".toList, "PR=2".toList, "LON0=15".toList]⟩
        no_options ∧
    knp_line (-2147483647) [] "TRANSVERSE MERCATOR".toList (Tok.str "45.5".toList) ∈
      emitted strtod_dec (0, 0)
        ⟨["[t]".toList, "PR=2".toList, "LON0=15".toList, "PP=45.5".toList]⟩ no_options ∧
    knp_line (-2147483647) [] "MERCATOR".toList (Tok.str "UNKNOWN".toList) ∈
      emitted strtod_dec (0, 0) ⟨["[t]".toList, "PR=1".toList, "LON0=15".toList]⟩
        no_options ∧
    ∃ buf1 comments p sc gd pr pp,
      process_comment ⟨["[t]".toList, "PR=2".toList, "LON0=15".toList]⟩ =
        .ok (buf1, comments) ∧
      (input_buffer.mk ["[t]".toList, "PR=2".toList, "LON0=15".toList]).field_long
        strtod_dec "PR".toList 0 = .ok p ∧
      knp_line sc gd pr pp ∈ emitted strtod_dec (0, 0)
        ⟨["[t]".toList, "PR=2".toList, "LON0=15".toList]⟩ no_options := by
  have hc : convert_section strtod_dec (0, 0)
      ⟨["[t]".toList, "PR=2".toList, "LON0=15".toList]⟩ no_options =
      .ok ⟨"t.hdr".toList, emitted strtod_dec (0, 0)
        ⟨["[t]".toList, "PR=2".toList, "LON0=15".toList]⟩ no_options⟩ := by
    decide!
  refine ⟨by decide!, by decide!, by decide!, ?_⟩
  obtain ⟨buf1, comments, p, sc, gd, pr, pp, h1, h2, h3, -⟩ :=
    (pp_is_lon0_for_transverse_mercator strtod_dec (0, 0) _ no_options).2 _ hc
  exact ⟨buf1, comments, p, sc, gd, pr, pp, h1, h2, h3⟩

/-- C14, the failing records: the comment sub-line `BSBHDR` alone leaves an
empty text after the token, on which `cline.at(0)` throws; an empty line 0
makes `substr(1, ...)` throw.  In both cases the conversion aborts with
`std::out_of_range`, and no record whose comment field is `BSBHDR` is ever
converted. -/
theorem bare_bsbhdr_aborts_conversion :
    convert_section strtod_dec (0, 0) ⟨["[t]".toList, "CR=BSBHDR".toList]⟩ no_options =
      .error .out_of_range ∧
    convert_section strtod_dec (0, 0) ⟨[[], "FN=a".toList]⟩ no_options =
      .error .out_of_range ∧
    (∀ (strtod : Str → ℚ) (g : Int × Int) (buf : input_buffer) (opt : command_line_info)
      (out : out_file), buf.field "CR".toList = "BSBHDR".toList →
      convert_section strtod g buf opt ≠ .ok out) := by
  refine ⟨by decide!, by decide!, ?_⟩
  intro strtod g buf opt out hcr h
  obtain ⟨mc, sc, du, p, i, buf1, comments, adds, refs, rs, plys, -, -, -, -, -, hpc, -⟩ :=
    convert_section_ok strtod g buf opt out h
  rw [process_comment_eq, hcr] at hpc
  exact absurd hpc (by
    show (Except.error Err.out_of_range : Except Err (input_buffer × List (List Tok))) ≠ _
    simp)

/-! ## The record splitter (C15 to C17, C20) -/

theorem trim_trailing_head (l : Str) : (trim_trailing l).head? = l.head? := by
  cases l with
  | nil => rfl
  | cons c cs =>
    unfold trim_trailing
    split
    · simp [substr]
    · rfl

theorem trim_trailing_isEmpty (l : Str) : (trim_trailing l).isEmpty = l.isEmpty := by
  have h := trim_trailing_head l
  cases ht : trim_trailing l with
  | nil =>
    rw [ht] at h
    cases l with
    | nil => rfl
    | cons c cs => simp at h
  | cons a t =>
    rw [ht] at h
    cases l with
    | nil => simp at h
    | cons c cs => rfl

/-- The test of `main` that a line is read at all is the test `ignored` on the
raw line. -/
theorem read_test_eq (l : Str) :
    (¬ (trim_trailing l).isEmpty ∧ (trim_trailing l).head? ≠ some ';') ↔ ignored l = false := by
  rw [trim_trailing_isEmpty, trim_trailing_head]
  unfold ignored
  cases l with
  | nil => simp
  | cons c cs => simp

theorem main_step_ignored (strtod : Str → ℚ) (garbage : Nat → Int × Int)
    (opt : command_line_info) (s : run_state) (line : Str) (h : ignored line = true) :
    main_step strtod garbage opt s line = .ok s := by
  unfold main_step
  simp only
  rw [if_neg]
  intro hc
  have := (read_test_eq line).mp hc
  rw [h] at this
  cases this

theorem buffer_empty_false_of_count (b : input_buffer) (h : 0 < b.count) : b.empty = false := by
  cases hb : b.lines with
  | nil => simp [input_buffer.count, hb] at h
  | cons a t => simp [input_buffer.empty, hb]

theorem buffer_count_pos (b : input_buffer) (h : b.empty = false) : 0 < b.count := by
  cases hb : b.lines with
  | nil => simp [input_buffer.empty, hb] at h
  | cons a t => simp [input_buffer.count, hb]

theorem append_line_on_stored (b : input_buffer) (text : Str) (h : b.empty = false) :
    (b.append_line text).1 = true ∧ (b.append_line text).2.count = b.count := by
  unfold input_buffer.append_line
  simp [h, input_buffer.count]

theorem append_line_on_empty (b : input_buffer) (text : Str) (h : b.empty = true) :
    (b.append_line text).1 = false := by
  unfold input_buffer.append_line
  simp [h]

/-- A continuation line: what `main` does with it depends on the buffer only. -/
theorem main_step_continuation (strtod : Str → ℚ) (garbage : Nat → Int × Int)
    (opt : command_line_info) (s : run_state) (line : Str) (h : line.head? = some ' ') :
    main_step strtod garbage opt s line =
      if (s.inp.append_line (trim (trim_trailing line))).1 then
        .ok { s with inp := (s.inp.append_line (trim (trim_trailing line))).2 }
      else .error .bad_calibration := by
  have hi : ignored line = false := by
    cases line with
    | nil => simp at h
    | cons c cs =>
      simp only [List.head?_cons, Option.some.injEq] at h
      subst h
      rfl
  unfold main_step
  simp only
  rw [if_pos ((read_test_eq line).mpr hi)]
  have ht : ¬ ((trim_trailing line).head? = some '[' ∧
      (trim_trailing line).getLast? = some ']' ∧ ¬ s.inp.empty = true) := by
    rw [trim_trailing_head, h]
    intro hc
    exact absurd hc.1 (by decide)
  rw [if_neg ht]
  simp only
  rw [if_pos (by rw [trim_trailing_head, h])]

/-- A line that is read and is no continuation line ends up in the buffer. -/
theorem main_step_stored (strtod : Str → ℚ) (garbage : Nat → Int × Int)
    (opt : command_line_info) (s s1 : run_state) (line : Str) (hi : ignored line = false)
    (h : line.head? ≠ some ' ') (hs : main_step strtod garbage opt s line = .ok s1) :
    s1.inp.empty = false := by
  unfold main_step at hs
  simp only at hs
  rw [if_pos ((read_test_eq line).mpr hi)] at hs
  split at hs
  · cases hs
  · rename_i s2 _
    rw [if_neg (by rw [trim_trailing_head]; exact h)] at hs
    cases hs
    simp [input_buffer.add_line, input_buffer.empty]

theorem dispatch_not_bad (strtod : Str → ℚ) (garbage : Nat → Int × Int)
    (opt : command_line_info) (s : run_state) :
    dispatch strtod garbage opt s ≠ .error .bad_calibration := by
  unfold dispatch
  split
  · simp
  · split
    · split <;> simp
    · simp

theorem main_step_not_bad (strtod : Str → ℚ) (garbage : Nat → Int × Int)
    (opt : command_line_info) (s : run_state) (line : Str) (hne : s.inp.empty = false) :
    main_step strtod garbage opt s line ≠ .error .bad_calibration ∧
    ∀ s1, main_step strtod garbage opt s line = .ok s1 → s1.inp.empty = false := by
  by_cases hi : ignored line = true
  · rw [main_step_ignored _ _ _ _ _ hi]
    refine ⟨by simp, ?_⟩
    intro s1 h1
    cases h1
    exact hne
  · have hi : ignored line = false := by simpa using hi
    by_cases hsp : line.head? = some ' '
    · rw [main_step_continuation _ _ _ _ _ hsp]
      have ha := append_line_on_stored s.inp (trim (trim_trailing line)) hne
      rw [if_pos ha.1]
      refine ⟨by simp, ?_⟩
      intro s1 h1
      cases h1
      apply buffer_empty_false_of_count
      simp only
      rw [ha.2]
      exact buffer_count_pos _ hne
    · refine ⟨?_, fun s1 h1 => main_step_stored _ _ _ _ _ _ hi hsp h1⟩
      intro hc
      unfold main_step at hc
      simp only at hc
      rw [if_pos ((read_test_eq line).mpr hi)] at hc
      split at hc
      · rename_i r hr
        cases hc
        split at hr
        · exact dispatch_not_bad _ _ _ _ hr
        · cases hr
      · rw [if_neg (by rw [trim_trailing_head]; exact hsp)] at hc
        cases hc

theorem main_loop_not_bad (strtod : Str → ℚ) (garbage : Nat → Int × Int)
    (opt : command_line_info) (input : List Str) (s : run_state) (hne : s.inp.empty = false) :
    main_loop strtod garbage opt input s ≠ .error .bad_calibration := by
  induction input generalizing s with
  | nil => simp [main_loop]
  | cons line rest ih =>
    unfold main_loop
    have h := main_step_not_bad strtod garbage opt s line hne
    split
    · rename_i r hr
      intro hc
      cases hc
      exact h.1 hr
    · rename_i s1 hs1
      exact ih s1 (h.2 s1 hs1)

theorem main_loop_bad_iff (strtod : Str → ℚ) (garbage : Nat → Int × Int)
    (opt : command_line_info) (input : List Str) (s : run_state) (he : s.inp.empty = true) :
    main_loop strtod garbage opt input s = .error .bad_calibration ↔
      ∃ l, first_read input = some l ∧ l.head? = some ' ' := by
  induction input generalizing s with
  | nil => simp [main_loop, first_read]
  | cons line rest ih =>
    unfold main_loop
    by_cases hi : ignored line = true
    · rw [main_step_ignored _ _ _ _ _ hi]
      simp only
      rw [ih s he]
      simp [first_read, List.find?_cons, hi]
    · have hi : ignored line = false := by simpa using hi
      have hf : first_read (line :: rest) = some line := by
        simp [first_read, List.find?_cons, hi]
      rw [hf]
      by_cases hsp : line.head? = some ' '
      · rw [main_step_continuation _ _ _ _ _ hsp,
          if_neg (by rw [append_line_on_empty _ _ he]; simp)]
        simp [hsp]
      · constructor
        · intro hc
          split at hc
          · rename_i r hr
            cases hc
            unfold main_step at hr
            simp only at hr
            rw [if_pos ((read_test_eq line).mpr hi)] at hr
            split at hr
            · rename_i r2 hr2
              cases hr
              rw [if_neg (by simp [he])] at hr2
              cases hr2
            · rw [if_neg (by rw [trim_trailing_head]; exact hsp)] at hr
              cases hr
          · rename_i s1 hs1
            exact absurd hc (main_loop_not_bad _ _ _ _ _
              (main_step_stored _ _ _ _ _ _ hi hsp hs1))
        · rintro ⟨l, hl, hl2⟩
          cases hl
          exact absurd hl2 hsp

/-- C15: the run ends with the fatal error `Bad Calibration File` if and only if
the first line of the stream that is neither empty nor a `;` comment begins with
a space; a pass of the loop ends with it exactly on a continuation line read
while the buffer holds no line; and a continuation line read while the buffer
holds a line is joined to it, never fatal. -/
theorem fatal_iff_first_line_is_continuation (strtod : Str → ℚ)
    (garbage : Nat → Int × Int) (opt : command_line_info) (input : List Str) :
    (main_run strtod garbage opt input = .error .bad_calibration ↔
      ∃ l, first_read input = some l ∧ l.head? = some ' ') ∧
    (∀ (s : run_state) (line : Str),
      main_step strtod garbage opt s line = .error .bad_calibration ↔
        ignored line = false ∧ line.head? = some ' ' ∧ s.inp.empty = true) ∧
    (∀ (s : run_state) (line : Str), s.inp.empty = false → line.head? = some ' ' →
      ∃ s1, main_step strtod garbage opt s line = .ok s1 ∧ s1.inp.count = s.inp.count) := by
  refine ⟨?_, ?_, ?_⟩
  · rw [← main_loop_bad_iff strtod garbage opt input ⟨⟨[]⟩, 0, [], []⟩ rfl]
    unfold main_run
    constructor
    · intro h
      split at h
      · rename_i r hr
        cases h
        exact hr
      · split at h
        · rename_i r hr
          cases h
          split at hr
          · exact absurd hr (dispatch_not_bad _ _ _ _)
          · cases hr
        · cases h
    · intro h
      rw [h]
  · intro s line
    constructor
    · intro h
      by_cases he : s.inp.empty = true
      · by_cases hi : ignored line = true
        · rw [main_step_ignored _ _ _ _ _ hi] at h
          cases h
        · have hi : ignored line = false := by simpa using hi
          refine ⟨hi, ?_, he⟩
          by_contra hsp
          unfold main_step at h
          simp only at h
          rw [if_pos ((read_test_eq line).mpr hi)] at h
          split at h
          · rename_i r hr
            cases h
            rw [if_neg (by simp [he])] at hr
            cases hr
          · rw [if_neg (by rw [trim_trailing_head]; exact hsp)] at h
            cases h
      · have he : s.inp.empty = false := by simpa using he
        exact absurd h (main_step_not_bad _ _ _ _ _ he).1
    · rintro ⟨-, hsp, he⟩
      rw [main_step_continuation _ _ _ _ _ hsp,
        if_neg (by rw [append_line_on_empty _ _ he]; simp)]
  · intro s line hne hsp
    rw [main_step_continuation _ _ _ _ _ hsp]
    have ha := append_line_on_stored s.inp (trim (trim_trailing line)) hne
    rw [if_pos ha.1]
    exact ⟨_, rfl, ha.2⟩

/-- C15, two instances: a stream whose first line read begins with a space ends
with the fatal error; a continuation line after a stored line does not. -/
theorem fatal_iff_first_line_is_continuation_witness :
    main_run strtod_dec no_garbage no_options
      [[], "; note".toList, " CR=x".toList, "[t]".toList] = .error .bad_calibration ∧
    main_run strtod_dec no_garbage no_options
      ["[t]".toList, "CR=x".toList, " y".toList] ≠ .error .bad_calibration :=
  ⟨(fatal_iff_first_line_is_continuation strtod_dec no_garbage no_options
      [[], "; note".toList, " CR=x".toList, "[t]".toList]).1.mpr
      ⟨" CR=x".toList, by decide, by decide⟩,
   fun h => absurd ((fatal_iff_first_line_is_continuation strtod_dec no_garbage no_options
      ["[t]".toList, "CR=x".toList, " y".toList]).1.mp h) (by decide)⟩

theorem dispatch_counts (strtod : Str → ℚ) (garbage : Nat → Int × Int)
    (opt : command_line_info) (s s1 : run_state)
    (h : dispatch strtod garbage opt s = .ok s1) :
    (s.nout = s.files.length → s1.nout = s1.files.length) ∧
    (opt.list = true → s1.files = s.files ∧ s1.nout = s.nout) := by
  unfold dispatch at h
  split at h
  · cases h
    exact ⟨fun h => h, fun _ => ⟨rfl, rfl⟩⟩
  · rename_i hl
    split at h
    · split at h
      · cases h
      · cases h
        refine ⟨fun h => by simp [h], fun hc => absurd hc hl⟩
    · cases h
      exact ⟨fun h => h, fun _ => ⟨rfl, rfl⟩⟩

theorem main_step_counts (strtod : Str → ℚ) (garbage : Nat → Int × Int)
    (opt : command_line_info) (s s1 : run_state) (line : Str)
    (h : main_step strtod garbage opt s line = .ok s1) :
    (s.nout = s.files.length → s1.nout = s1.files.length) ∧
    (opt.list = true → s1.files = s.files ∧ s1.nout = s.nout) := by
  unfold main_step at h
  simp only at h
  split at h
  · split at h
    · cases h
    · rename_i s2 hs2
      have h2 : (s.nout = s.files.length → s2.nout = s2.files.length) ∧
          (opt.list = true → s2.files = s.files ∧ s2.nout = s.nout) := by
        split at hs2
        · exact dispatch_counts _ _ _ _ _ hs2
        · cases hs2
          exact ⟨fun h => h, fun _ => ⟨rfl, rfl⟩⟩
      split at h
      · split at h
        · cases h
          exact h2
        · cases h
      · cases h
        exact h2
  · cases h
    exact ⟨fun h => h, fun _ => ⟨rfl, rfl⟩⟩

theorem main_loop_counts (strtod : Str → ℚ) (garbage : Nat → Int × Int)
    (opt : command_line_info) (input : List Str) (s s1 : run_state)
    (h : main_loop strtod garbage opt input s = .ok s1) :
    (s.nout = s.files.length → s1.nout = s1.files.length) ∧
    (opt.list = true → s1.files = s.files ∧ s1.nout = s.nout) := by
  induction input generalizing s with
  | nil =>
    cases h
    exact ⟨fun h => h, fun _ => ⟨rfl, rfl⟩⟩
  | cons line rest ih =>
    unfold main_loop at h
    split at h
    · cases h
    · rename_i s2 hs2
      have h1 := main_step_counts _ _ _ _ _ _ hs2
      have h2 := ih s2 h
      refine ⟨fun hc => h2.1 (h1.1 hc), fun hl => ?_⟩
      obtain ⟨a1, a2⟩ := h1.2 hl
      obtain ⟨b1, b2⟩ := h2.2 hl
      exact ⟨b1.trans a1, b2.trans a2⟩

/-- C16, what fails: an input with two records read with `-l` lists both
records and writes no file, and the exit status is 1: the counter `nout` is
only advanced when a record is converted. -/
theorem listing_exits_with_status_one :
    main_run strtod_dec no_garbage list_options
      ["[a]".toList, "FN=a.kap".toList, "NA=Chart A".toList,
       "[b]".toList, "FN=b.kap".toList, "NA=Chart B".toList] =
      .ok (1, ⟨⟨[]⟩, 0, [],
        [[Tok.str "a".toList, Tok.str "Chart A".toList],
         [Tok.str "b".toList, Tok.str "Chart B".toList]]⟩) := by
  decide!

/-- C16, amended: for every input that is processed to the end, the exit status
is 0 if at least one record was converted (a file was written) and 1 otherwise;
`nout` counts the files written, and in list mode no file is written and the
status is 1. -/
theorem exit_status_counts_conversions (strtod : Str → ℚ) (garbage : Nat → Int × Int)
    (opt : command_line_info) (input : List Str) (status : Nat) (s : run_state)
    (h : main_run strtod garbage opt input = .ok (status, s)) :
    s.nout = s.files.length ∧
    (status = 0 ↔ s.files ≠ []) ∧
    (status = 1 ↔ s.files = []) ∧
    (opt.list = true → status = 1 ∧ s.files = []) := by
  unfold main_run at h
  split at h
  · cases h
  · rename_i s0 hs0
    have h0 := main_loop_counts _ _ _ _ _ _ hs0
    split at h
    · cases h
    · rename_i s1 hs1
      have h1 : (s0.nout = s0.files.length → s1.nout = s1.files.length) ∧
          (opt.list = true → s1.files = s0.files ∧ s1.nout = s0.nout) := by
        split at hs1
        · exact dispatch_counts _ _ _ _ _ hs1
        · cases hs1
          exact ⟨fun h => h, fun _ => ⟨rfl, rfl⟩⟩
      obtain ⟨hst, hss⟩ := Prod.mk.inj (Except.ok.inj h)
      subst hss
      subst hst
      have hn : s1.nout = s1.files.length := h1.1 (h0.1 rfl)
      have hlen : s1.files = [] ↔ s1.nout = 0 := by
        rw [hn]
        exact List.length_eq_zero.symm
      refine ⟨hn, ?_, ?_, ?_⟩
      · rw [Ne, hlen]
        split <;> omega
      · rw [hlen]
        split <;> omega
      · intro hl
        have hf : s1.files = [] := by
          rw [(h1.2 hl).1, (h0.2 hl).1]
        refine ⟨?_, hf⟩
        have := hlen.mp hf
        rw [this]
        rfl

/-- C16, an instance: two records converted without options, exit status 0. -/
theorem exit_status_counts_conversions_witness :
    ∃ s, main_run strtod_dec no_garbage no_options
        ["[a]".toList, "FN=a.kap".toList, "[b]".toList, "FN=b.kap".toList] = .ok (0, s) ∧
      s.nout = 2 ∧ s.files.length = 2 := by
  have hb : (main_run strtod_dec no_garbage no_options
      ["[a]".toList, "FN=a.kap".toList, "[b]".toList, "FN=b.kap".toList]).toBool = true := by
    decide!
  have h2 : (main_run strtod_dec no_garbage no_options
      ["[a]".toList, "FN=a.kap".toList, "[b]".toList, "FN=b.kap".toList]).map
      (fun r => (r.1, r.2.nout)) = .ok (0, 2) := by
    decide!
  cases hr : main_run strtod_dec no_garbage no_options
      ["[a]".toList, "FN=a.kap".toList, "[b]".toList, "FN=b.kap".toList] with
  | error e =>
    rw [hr] at hb
    cases hb
  | ok r =>
    obtain ⟨status, s⟩ := r
    rw [hr] at h2
    have h3 : status = 0 ∧ s.nout = 2 := by
      simpa [Except.map] using h2
    obtain ⟨rfl, hn⟩ := h3
    have h4 := exit_status_counts_conversions strtod_dec no_garbage no_options _ 0 s hr
    exact ⟨s, rfl, hn, by rw [← h4.1, hn]⟩

theorem find_from_dot_reverse (s : Str) :
    (match find_last_of s '.' with
      | some find_end => substr s 0 find_end
      | none => s) = strip_extension s := by
  unfold find_last_of strip_extension
  cases hf : find_from ['.'] s.reverse 0 with
  | none =>
    rw [find_from_none] at hf
    have : '.' ∉ s := by
      intro hc
      exact hf '.' (List.mem_reverse.mpr hc) (by simp)
    simp [this]
  | some i =>
    obtain ⟨pre, c, post, h1, h2, h3, h4⟩ := find_from_some _ _ _ _ hf
    have hc : c = '.' := by simpa using h3
    subst hc
    have hs : s = post.reverse ++ '.' :: pre.reverse := by
      have := congrArg List.reverse h1
      simpa using this
    have hmem : '.' ∈ s := by
      rw [hs]
      simp
    have hdw : (s.reverse.dropWhile (fun c => c ≠ '.')) = '.' :: post := by
      rw [h1, List.dropWhile_append_of_pos]
      · simp [List.dropWhile_cons]
      · intro x hx
        have := h2 x hx
        simpa using this
    simp only [hmem, if_true, hdw, List.drop_one, List.tail_cons]
    have hlen : s.length - 1 - i = post.length := by
      rw [h4, hs]
      simp
    rw [hlen, hs]
    simp [substr]

/-- The name that `main` compares with the filter is the field `FN` without its
extension. -/
theorem record_name_eq (inp : input_buffer) :
    record_name inp = strip_extension (inp.field "FN".toList) := by
  unfold record_name
  exact find_from_dot_reverse _

/-- C17: with a non-empty `-s` filter and list mode off, a pending record whose
field `FN` without its extension differs from the filter is not converted (no
file is added, the counter stays); one whose name equals the filter is handed
to `convert_section` exactly once, and the file of that conversion is the one
file that is added (a conversion that aborts ends the run; none is cut off by
an iteration bound). -/
theorem filter_selects_the_record (strtod : Str → ℚ) (garbage : Nat → Int × Int)
    (opt : command_line_info) (s : run_state) (hl : opt.list = false)
    (hs : opt.sw_single ≠ []) :
    (strip_extension (s.inp.field "FN".toList) ≠ opt.sw_single →
      dispatch strtod garbage opt s = .ok { s with inp := s.inp.reset }) ∧
    (strip_extension (s.inp.field "FN".toList) = opt.sw_single →
      (∀ out, convert_section strtod (garbage s.nout) s.inp opt = .ok out →
        dispatch strtod garbage opt s =
          .ok { s with files := s.files ++ [out], nout := s.nout + 1, inp := s.inp.reset }) ∧
      (∀ e, convert_section strtod (garbage s.nout) s.inp opt = .error e →
        dispatch strtod garbage opt s = .error (.aborted e)) ∧
      convert_section strtod (garbage s.nout) s.inp opt ≠ .error .fuel) := by
  rw [← record_name_eq]
  unfold dispatch
  simp only [hl, Bool.false_eq_true, if_false]
  constructor
  · intro h
    rw [if_neg]
    rintro (hc | hc)
    · exact hs hc
    · exact h hc
  · intro h
    rw [if_pos (Or.inr h)]
    refine ⟨?_, ?_, convert_section_no_fuel _ _ _ _⟩
    · intro out ho
      rw [ho]
    · intro e he
      rw [he]

/-- C17, two instances with the filter `a`: the record `a.kap` adds one file,
the record `b.kap` adds none. -/
theorem filter_selects_the_record_witness :
    (∃ s1, dispatch strtod_dec no_garbage ⟨false, false, "a".toList, [], [], []⟩
        ⟨⟨["[a]".toList, "FN=a.kap".toList]⟩, 0, [], []⟩ = .ok s1 ∧
      s1.files.length = 1 ∧ s1.nout = 1) ∧
    dispatch strtod_dec no_garbage ⟨false, false, "a".toList, [], [], []⟩
        ⟨⟨["[b]".toList, "FN=b.kap".toList]⟩, 0, [], []⟩ = .ok ⟨⟨[]⟩, 0, [], []⟩ := by
  have hc : convert_section strtod_dec (no_garbage 0) ⟨["[a]".toList, "FN=a.kap".toList]⟩
      ⟨false, false, "a".toList, [], [], []⟩ =
      .ok ⟨"a.hdr".toList, emitted strtod_dec (0, 0) ⟨["[a]".toList, "FN=a.kap".toList]⟩
        ⟨false, false, "a".toList, [], [], []⟩⟩ := by
    decide!
  constructor
  · exact ⟨_, ((filter_selects_the_record strtod_dec no_garbage
      ⟨false, false, "a".toList, [], [], []⟩
      ⟨⟨["[a]".toList, "FN=a.kap".toList]⟩, 0, [], []⟩ rfl (by decide)).2 (by decide)).1 _ hc,
      rfl, rfl⟩
  · exact (filter_selects_the_record strtod_dec no_garbage
      ⟨false, false, "a".toList, [], [], []⟩
      ⟨⟨["[b]".toList, "FN=b.kap".toList]⟩, 0, [], []⟩ rfl (by decide)).1 (by decide)

/-- C20, the failing streams: nothing makes the first line read a title.  For
the stream with the single line `FN=a.kap` the buffer pending at the end of the
file has that line as its line 0; it is dispatched and converted, and the file
written is named `N=a.hdr` after the characters between the first and the last
of `FN=a.kap`.  A continuation line right after a title is joined to line 0,
which then does not end with `]`. -/
theorem first_line_need_not_be_a_title :
    main_loop strtod_dec no_garbage no_options ["FN=a.kap".toList] ⟨⟨[]⟩, 0, [], []⟩ =
      .ok ⟨⟨["FN=a.kap".toList]⟩, 0, [], []⟩ ∧
    (main_run strtod_dec no_garbage no_options ["FN=a.kap".toList]).map
      (fun r => (r.1, r.2.files.map (fun f => f.name))) = .ok (0, ["N=a.hdr".toList]) ∧
    main_loop strtod_dec no_garbage no_options ["[t]".toList, " x".toList]
      ⟨⟨[]⟩, 0, [], []⟩ = .ok ⟨⟨["[t]\nx".toList]⟩, 0, [], []⟩ := by
  decide!

/-! ## The added lines (C13) -/

/-- The loop over `ADD1`, `ADD2`, ... writes the fields up to the first one
that is empty. -/
theorem add_loop_spec (b : input_buffer) (n cnt : Nat) (adds : List (List Tok))
    (h : add_loop b n cnt = .ok adds) :
    ∃ k, (∀ j : Nat, cnt ≤ j → j < cnt + k → b.field ("ADD".toList ++ itoa (j : Int)) ≠ []) ∧
      b.field ("ADD".toList ++ itoa ((cnt + k : Nat) : Int)) = [] ∧
      adds = (List.range k).map
        (fun i => [Tok.str (b.field ("ADD".toList ++ itoa ((cnt + i : Nat) : Int)))]) := by
  induction n generalizing cnt adds with
  | zero => simp [add_loop] at h
  | succ n ih =>
    unfold add_loop at h
    simp only at h
    split at h
    · rename_i hemp
      cases h
      refine ⟨0, ?_, ?_, rfl⟩
      · intro j h1 h2
        omega
      · simpa [List.isEmpty_iff] using hemp
    · rename_i hne
      split at h
      · cases h
      · rename_i rest hrest
        cases h
        obtain ⟨k, hk1, hk2, hk3⟩ := ih _ _ hrest
        refine ⟨k + 1, ?_, ?_, ?_⟩
        · intro j h1 h2
          rcases Nat.eq_or_lt_of_le h1 with rfl | h3
          · simpa [List.isEmpty_iff] using hne
          · exact hk1 j (by omega) (by omega)
        · rw [show cnt + (k + 1) = cnt + 1 + k by omega]
          exact hk2
        · rw [List.range_succ_eq_map, List.map_cons, List.map_map, hk3]
          congr 1
          apply List.map_congr_left
          intro i _
          simp only [Function.comp]
          rw [show cnt + 1 + i = cnt + (i + 1) by omega]

/-- A key that begins with `ADD` is looked up among the lines that begin with
`ADD`. -/
theorem first_match_filter_add (lines : List Str) (k : Str) (hk : "ADD".toList <+: k) :
    first_match lines k =
      first_match (lines.filter (fun l => decide ("ADD".toList <+: l))) k := by
  unfold first_match
  rw [List.find?_filter]
  congr 1
  funext l
  by_cases h : k.length + 1 < l.length ∧ (k ++ ['=']) <+: l
  · have : "ADD".toList <+: l :=
      (hk.trans (List.prefix_append k ['='])).trans h.2
    rw [decide_eq_true h, decide_eq_true this]
    rfl
  · rw [decide_eq_false h]
    simp

theorem add_field_matches (n : Nat) (r : Str) (hr : r ≠ []) (m : Nat) :
    (("ADD".toList ++ itoa (m : Int)).length + 1 < (add_field n r).length ∧
      ("ADD".toList ++ itoa (m : Int) ++ ['=']) <+: add_field n r) ↔ m = n := by
  constructor
  · rintro ⟨-, h⟩
    have h2 : ("ADD".toList ++ itoa (n : Int) ++ ['=']) <+: add_field n r :=
      ⟨r, by simp [add_field]⟩
    exact numbered_key_unique "ADD".toList _ m n h h2
  · rintro rfl
    have hpos : 0 < r.length := List.length_pos.mpr hr
    refine ⟨?_, ⟨r, by simp [add_field]⟩⟩
    simp only [add_field, List.length_append]
    have : "=".toList.length = 1 := rfl
    omega

theorem first_match_number_from (rs : List Str) (a m : Nat) (hrs : ∀ r ∈ rs, r ≠ []) :
    first_match (number_from a rs) ("ADD".toList ++ itoa (m : Int)) =
      if a ≤ m ∧ m < a + rs.length then some (add_field m (rs.getD (m - a) [])) else none := by
  induction rs generalizing a with
  | nil =>
    rw [if_neg (by simp only [List.length_nil]; omega)]
    rfl
  | cons r rest ih =>
    have hr : r ≠ [] := hrs r (List.mem_cons_self _ _)
    have hrest : ∀ x ∈ rest, x ≠ [] := fun x hx => hrs x (List.mem_cons_of_mem _ hx)
    unfold number_from first_match
    rw [List.find?_cons]
    by_cases hm : m = a
    · subst hm
      have := (add_field_matches m r hr m).mpr rfl
      simp only [this, and_self, decide_True]
      simp
    · have hn : ¬ (("ADD".toList ++ itoa (m : Int)).length + 1 < (add_field a r).length ∧
          ("ADD".toList ++ itoa (m : Int) ++ ['=']) <+: add_field a r) :=
        fun hc => hm ((add_field_matches a r hr m).mp hc)
      simp only [hn, decide_False]
      have := ih (a + 1) hrest
      unfold first_match at this
      rw [this]
      by_cases hc : a + 1 ≤ m ∧ m < a + 1 + rest.length
      · rw [if_pos hc, if_pos (by simp only [List.length_cons]; omega)]
        have : m - a = (m - (a + 1)) + 1 := by omega
        rw [this, List.getD_cons_succ]
      · rw [if_neg hc, if_neg (by simp only [List.length_cons]; omega)]

theorem add_field_drop (n : Nat) (r : Str) :
    (add_field n r).drop (("ADD".toList ++ itoa (n : Int)).length + 1) = r := by
  have : add_field n r = ("ADD".toList ++ itoa (n : Int) ++ "=".toList) ++ r := by
    simp [add_field]
  rw [this]
  apply List.drop_left'
  simp

/-- The fields `ADD1`, `ADD2`, ... of a buffer whose lines beginning with `ADD`
are the synthetic lines of `rs`. -/
theorem field_of_numbered (b : input_buffer) (rs : List Str) (hrs : ∀ r ∈ rs, r ≠ [])
    (hb : b.lines.filter (fun l => decide ("ADD".toList <+: l)) = number_from 1 rs) (m : Nat) :
    b.field ("ADD".toList ++ itoa (m : Int)) =
      if 1 ≤ m ∧ m < 1 + rs.length then rs.getD (m - 1) [] else [] := by
  rw [field_eq_spec, field_spec,
    first_match_filter_add _ _ (List.prefix_append "ADD".toList (itoa (m : Int))), hb,
    first_match_number_from rs 1 m hrs]
  by_cases hc : 1 ≤ m ∧ m < 1 + rs.length
  · rw [if_pos hc, if_pos hc]
    exact add_field_drop m _
  · rw [if_neg hc, if_neg hc]

theorem skip_spaces_eq (x y : Str) (h : skip_spaces x = .ok y) :
    y = x.dropWhile (fun c => c = ' ') ∧ y ≠ [] := by
  induction x with
  | nil => simp [skip_spaces] at h
  | cons c cs ih =>
    unfold skip_spaces at h
    split at h
    · rename_i hc
      have := ih h
      simpa [List.dropWhile_cons, hc] using this
    · rename_i hc
      cases h
      simp [List.dropWhile_cons, hc]

theorem substr_eq_iff_starts (p c : Str) : substr c 0 p.length = p ↔ p <+: c := by
  rw [List.prefix_iff_eq_take]
  simp only [substr, List.drop_zero]
  exact eq_comm

theorem extract_field_mem_or_nil (v : Str) (t : Nat) :
    extract_field v t = [] ∨ extract_field v t ∈ v.splitOn ',' := by
  rw [extract_field_eq, List.getD_eq_getElem?_getD]
  by_cases h : t < (v.splitOn ',').length
  · right
    rw [List.getElem?_eq_getElem h]
    exact List.getElem_mem _
  · left
    rw [List.getElem?_eq_none (by omega)]
    rfl

theorem not_add_nil : ¬ "ADD".toList <+: ([] : Str) := by decide

theorem field_string_no_add (tmp : input_buffer) (key : Str) (t : Nat)
    (hT : tmp_no_add tmp) (hk : key.length = 3) :
    ¬ "ADD".toList <+: tmp.field_string key t := by
  intro hc
  have h1 : "ADD".toList <+: extract_field (tmp.field key) t :=
    hc.trans (List.takeWhile_prefix _)
  rcases extract_field_mem_or_nil (tmp.field key) t with h2 | h2
  · rw [h2] at h1
    exact not_add_nil h1
  · by_cases hf : tmp.field key = []
    · rw [hf] at h2 h1
      simp only [List.splitOn_nil, List.mem_singleton] at h2
      rw [h2] at h1
      exact not_add_nil h1
    · obtain ⟨l, hl, hmem, -⟩ := field_ne_nil_line tmp key hf
      have hv : tmp.field key = l.drop 4 := by
        rw [field_eq_spec, field_spec, hl, hk]
      rw [hv] at h2 h1
      exact hT l hmem _ h2 h1

theorem inject_loop_no_add (tmp : input_buffer) (key : Str) (n t : Nat)
    (buf b1 : input_buffer) (hT : tmp_no_add tmp) (hk : key.length = 3)
    (h : inject_loop tmp key n t buf = .ok b1) :
    ∃ X, b1.lines = buf.lines ++ X ∧ ∀ x ∈ X, ¬ "ADD".toList <+: x := by
  induction n generalizing t buf with
  | zero => simp [inject_loop] at h
  | succ n ih =>
    unfold inject_loop at h
    simp only at h
    split at h
    · cases h
      exact ⟨[], by simp, by simp⟩
    · obtain ⟨X, hX, hX2⟩ := ih _ _ h
      refine ⟨tmp.field_string key t :: X, by simp [hX, input_buffer.add_line], ?_⟩
      intro x hx
      rcases List.mem_cons.mp hx with rfl | hx
      · exact field_string_no_add tmp key t hT hk
      · exact hX2 x hx

theorem tmp_no_add_add_line (tmp : input_buffer) (key r : Str) (hk : key.length = 4)
    (hT : tmp_no_add tmp) (hr : ∀ f ∈ (r.drop 4).splitOn ',', ¬ "ADD".toList <+: f) :
    tmp_no_add (tmp.add_line (key ++ substr_from r 4)) := by
  intro tl htl
  simp only [input_buffer.add_line, List.mem_append, List.mem_singleton] at htl
  rcases htl with htl | rfl
  · exact hT tl htl
  · have : (key ++ substr_from r 4).drop 4 = r.drop 4 := by
      rw [← hk]
      simp [substr_from]
    rw [this]
    exact hr

/-- What one sub-line of the comment field does to the buffer: a command
without `KNP/` or `BSB/` prefix adds its synthetic line, every other sub-line
adds no line that begins with `ADD`. -/
theorem cr_line_add_spec (cline : Str) (s s1 : cr_state) (h : cr_line cline s = .ok s1)
    (hT : tmp_no_add s.tmp)
    (hc : ∀ r, command_text cline = some r → is_injection r →
      ∀ f ∈ (r.drop 4).splitOn ',', ¬ "ADD".toList <+: f) :
    (∃ r, add_text cline = some r ∧ r ≠ [] ∧
      s1.buf.lines = s.buf.lines ++ ["ADD".toList ++ itoa s.addn ++ "=".toList ++ r] ∧
      s1.addn = s.addn + 1 ∧ s1.tmp = s.tmp) ∨
    (add_text cline = none ∧ s1.addn = s.addn ∧ tmp_no_add s1.tmp ∧
      ∃ X, s1.buf.lines = s.buf.lines ++ X ∧ ∀ x ∈ X, ¬ "ADD".toList <+: x) := by
  unfold cr_line at h
  split at h
  · rename_i hb
    have hpre : "BSBHDR".toList <+: cline := (substr_eq_iff_starts "BSBHDR".toList cline).mp hb
    split at h
    · cases h
    · rename_i r hr
      obtain ⟨hr1, hr2⟩ := skip_spaces_eq _ _ hr
      have hct : command_text cline = some r := by
        unfold command_text
        rw [if_pos hpre, hr1]
        rfl
      split at h
      · rename_i hknp
        have hinj : is_injection r :=
          Or.inl ((substr_eq_iff_starts "KNP/".toList r).mp hknp)
        simp only at h
        split at h
        · cases h
        · rename_i b1 hb1
          cases h
          have hT1 := tmp_no_add_add_line s.tmp "KNP=".toList r rfl hT (hc r hct hinj)
          right
          refine ⟨?_, rfl, hT1, inject_loop_no_add _ "KNP".toList _ _ _ _ hT1 rfl hb1⟩
          unfold add_text
          rw [hct]
          simp only [hinj, if_true]
      · rename_i hknp
        split at h
        · rename_i hbsb
          have hinj : is_injection r :=
            Or.inr ((substr_eq_iff_starts "BSB/".toList r).mp hbsb)
          simp only at h
          split at h
          · cases h
          · rename_i b1 hb1
            cases h
            have hT1 := tmp_no_add_add_line s.tmp "BSB=".toList r rfl hT (hc r hct hinj)
            right
            refine ⟨?_, rfl, hT1, inject_loop_no_add _ "BSB".toList _ _ _ _ hT1 rfl hb1⟩
            unfold add_text
            rw [hct]
            simp only [hinj, if_true]
        · rename_i hbsb
          cases h
          have hinj : ¬ is_injection r := by
            rintro (hi | hi)
            · exact hknp ((substr_eq_iff_starts "KNP/".toList r).mpr hi)
            · exact hbsb ((substr_eq_iff_starts "BSB/".toList r).mpr hi)
          left
          refine ⟨r, ?_, hr2, rfl, rfl, rfl⟩
          unfold add_text
          rw [hct]
          simp only [hinj, if_false]
  · rename_i hb
    cases h
    have hpre : ¬ "BSBHDR".toList <+: cline :=
      fun hp => hb ((substr_eq_iff_starts "BSBHDR".toList cline).mpr hp)
    right
    refine ⟨?_, rfl, hT, [], by simp, by simp⟩
    unfold add_text command_text
    rw [if_neg hpre]

theorem add_field_starts_add (a : Nat) (r : Str) : "ADD".toList <+: add_field a r :=
  ⟨itoa (a : Int) ++ "=".toList ++ r, by simp [add_field]⟩

theorem filter_no_add (X : List Str) (h : ∀ x ∈ X, ¬ "ADD".toList <+: x) :
    X.filter (fun l => decide ("ADD".toList <+: l)) = [] := by
  rw [List.filter_eq_nil_iff]
  intro x hx
  simpa using h x hx

/-- The lines beginning with `ADD` that the comment scan adds to the buffer are
the synthetic lines of its commands without `KNP/` or `BSB/` prefix, numbered
in order. -/
theorem cr_lines_add_spec (L : List Str) (s s1 : cr_state) (a : Nat)
    (h : cr_lines L s = .ok s1) (hT : tmp_no_add s.tmp) (ha : s.addn = (a : Int))
    (hc : ∀ c ∈ L, ∀ r, command_text c = some r → is_injection r →
      ∀ f ∈ (r.drop 4).splitOn ',', ¬ "ADD".toList <+: f) :
    (∀ r ∈ L.filterMap add_text, r ≠ []) ∧
    ∃ X, s1.buf.lines = s.buf.lines ++ X ∧
      X.filter (fun l => decide ("ADD".toList <+: l)) = number_from a (L.filterMap add_text) := by
  induction L generalizing s a with
  | nil =>
    cases h
    exact ⟨by simp, [], by simp, rfl⟩
  | cons c rest ih =>
    unfold cr_lines at h
    split at h
    · cases h
    · rename_i s2 hs2
      have hcr : ∀ c ∈ rest, ∀ r, command_text c = some r → is_injection r →
          ∀ f ∈ (r.drop 4).splitOn ',', ¬ "ADD".toList <+: f :=
        fun c' hc' => hc c' (List.mem_cons_of_mem _ hc')
      rcases cr_line_add_spec c s s2 hs2 hT (hc c (List.mem_cons_self _ _)) with
        ⟨r, h1, h2, h3, h4, h5⟩ | ⟨h1, h2, h3, X, h4, h5⟩
      · have ha2 : s2.addn = ((a + 1 : Nat) : Int) := by
          rw [h4, ha]
          push_cast
          rfl
        obtain ⟨hne, Y, hY, hY2⟩ := ih s2 (a + 1) h (by rw [h5]; exact hT) ha2 hcr
        rw [List.filterMap_cons, h1]
        refine ⟨?_, add_field a r :: Y, ?_, ?_⟩
        · intro x hx
          rcases List.mem_cons.mp hx with rfl | hx
          · exact h2
          · exact hne x hx
        · rw [hY, h3, ha]
          simp [add_field]
        · rw [List.filter_cons, if_pos (by simpa using add_field_starts_add a r), hY2]
          rfl
      · obtain ⟨hne, Y, hY, hY2⟩ := ih s2 a h h3 (by rw [h2, ha]) hcr
        rw [List.filterMap_cons, h1]
        refine ⟨hne, X ++ Y, ?_, ?_⟩
        · rw [hY, h4, List.append_assoc]
        · rw [List.filter_append, filter_no_add X h5, hY2]
          rfl

theorem map_range_getD (l : List Str) (f : Str → List Tok) :
    (List.range l.length).map (fun i => f (l.getD i [])) = l.map f := by
  apply List.ext_getElem
  · simp
  · intro i h1 h2
    simp only [List.length_map, List.length_range] at h1
    simp [List.getD_eq_getElem?_getD, List.getElem?_eq_getElem h1]

/-- C13, what fails: the record has a line `ADD1=zzz` of its own and the comment
command `BSBHDR XX/1`.  The command is stored as a second `ADD1` line, the
lookup of `ADD1` finds the record's own line first, and the extra line of the
file is `zzz`, not the text `XX/1` of the command. -/
theorem own_add_field_hides_command :
    process_comment ⟨["[t]".toList, "ADD1=zzz".toList, "CR=BSBHDR XX/1".toList]⟩ =
      .ok (⟨["[t]".toList, "ADD1=zzz".toList, "CR=BSBHDR XX/1".toList,
        "ADD1=XX/1".toList]⟩, []) ∧
    [Tok.str "zzz".toList] ∈ emitted strtod_dec (0, 0)
      ⟨["[t]".toList, "ADD1=zzz".toList, "CR=BSBHDR XX/1".toList]⟩ no_options ∧
    [Tok.str "XX/1".toList] ∉ emitted strtod_dec (0, 0)
      ⟨["[t]".toList, "ADD1=zzz".toList, "CR=BSBHDR XX/1".toList]⟩ no_options := by
  decide!

/-- C13, amended: the conversion is never cut off by an iteration bound, and
for a record none of whose lines begins with `ADD` and whose `KNP/` and `BSB/`
commands inject no sub-field beginning with `ADD`, in every file that is
written: the commands without `KNP/` or `BSB/` prefix are stored as the fields
`ADD1`, `ADD2`, ... in order of appearance, and the file has exactly one extra
line per such command, the text of the command, in that order, right after the
`DX=` line and right before `OST/1`. -/
theorem add_commands_become_extra_lines (strtod : Str → ℚ) (g : Int × Int)
    (buf : input_buffer) (opt : command_line_info) :
    convert_section strtod g buf opt ≠ .error .fuel ∧
    ∀ out, convert_section strtod g buf opt = .ok out →
      (∀ l ∈ buf.lines, ¬ "ADD".toList <+: l) → injects_no_add (buf.field "CR".toList) →
      ∃ buf1 comments front back,
        process_comment buf = .ok (buf1, comments) ∧
        (∀ n : Nat, n < (add_commands (buf.field "CR".toList)).length →
          buf1.field ("ADD".toList ++ itoa ((n + 1 : Nat) : Int)) =
            (add_commands (buf.field "CR".toList)).getD n []) ∧
        buf1.field ("ADD".toList ++
          itoa (((add_commands (buf.field "CR".toList)).length + 1 : Nat) : Int)) = [] ∧
        out.lines = front ++
          [dx_line (buf.field_double strtod "DX".toList 0)
            (buf.field_double strtod "DY".toList 0)] ++
          (add_commands (buf.field "CR".toList)).map (fun r => [Tok.str r]) ++
          [[Tok.str "OST/1".toList]] ++ back := by
  refine ⟨convert_section_no_fuel strtod g buf opt, ?_⟩
  intro out h hown hinj
  obtain ⟨mc, sc, du, p, i, buf1, comments, adds, refs, rs, plys, -, -, -, -, -, hpc, hadd,
    -, -, -, hl⟩ := convert_section_ok strtod g buf opt out h
  -- the lines of the buffer that begin with `ADD`
  have hbuf : (∀ r ∈ add_commands (buf.field "CR".toList), r ≠ []) ∧
      buf1.lines.filter (fun l => decide ("ADD".toList <+: l)) =
        number_from 1 (add_commands (buf.field "CR".toList)) := by
    have hpc2 := hpc
    rw [process_comment_eq] at hpc2
    split at hpc2
    · rename_i hemp
      cases hpc2
      rw [List.isEmpty_iff.mp hemp]
      exact ⟨by decide, by rw [filter_no_add _ hown]; rfl⟩
    · split at hpc2
      · cases hpc2
      · rename_i s hs
        cases hpc2
        obtain ⟨hne, X, hX, hX2⟩ := cr_lines_add_spec _ _ _ 1 hs
          (by intro tl htl; simp at htl) rfl hinj
        refine ⟨hne, ?_⟩
        rw [hX, List.filter_append, filter_no_add _ hown, List.nil_append, hX2]
        rfl
  obtain ⟨hne, hfil⟩ := hbuf
  have hfield := field_of_numbered buf1 _ hne hfil
  obtain ⟨k, hk1, hk2, hk3⟩ := add_loop_spec _ _ _ _ hadd
  have hk : k = (add_commands (buf.field "CR".toList)).length := by
    rcases Nat.lt_trichotomy k (add_commands (buf.field "CR".toList)).length with hlt | heq | hgt
    · exfalso
      rw [hfield (1 + k), if_pos (by omega)] at hk2
      have hmem : (add_commands (buf.field "CR".toList)).getD (1 + k - 1) [] ∈
          add_commands (buf.field "CR".toList) := by
        rw [List.getD_eq_getElem?_getD, List.getElem?_eq_getElem (by omega)]
        exact List.getElem_mem _
      exact hne _ hmem hk2
    · exact heq
    · exfalso
      have := hk1 (1 + (add_commands (buf.field "CR".toList)).length) (by omega) (by omega)
      rw [hfield, if_neg (by omega)] at this
      exact this rfl
  have hadds : adds = (add_commands (buf.field "CR".toList)).map (fun r => [Tok.str r]) := by
    rw [hk3, hk, ← map_range_getD _ (fun r => [Tok.str r])]
    apply List.map_congr_left
    intro n hn
    have hn2 := List.mem_range.mp hn
    rw [hfield (1 + n), if_pos (by omega)]
    simp
  refine ⟨buf1, comments,
    [Tok.str "! Created by mc2bsbh ".toList, Tok.str VERSION,
      Tok.str " - Use at your own risk!".toList] :: comments ++
      (header_lines strtod buf1 sc du (clamp_projection p)
        (extract_field PR_LABELS (to_unsigned (clamp_projection p)))
        (extract_field UN_LABELS (to_unsigned (clamp_unit i)))
        (buf.field_double strtod "DX".toList 0)
        (buf.field_double strtod "DY".toList 0)).dropLast,
    refs ++ [cph_line rs] ++ plys ++ [dtm_line strtod buf1], hpc, ?_, ?_, ?_⟩
  · intro n hn
    rw [hfield (n + 1), if_pos (by omega)]
    simp
  · rw [hfield, if_neg (by omega)]
  · rw [hl, hadds]
    simp [header_lines, dx_line]

/-- C13, an instance: two commands around a `KNP/` command and a plain comment
give the two extra lines `XX/1` and `YY/2` between the `DX=` line and `OST/1`. -/
theorem add_commands_become_extra_lines_witness :
    add_commands "BSBHDR XX/1\ta note\tBSBHDR KNP/SK=2\tBSBHDR   YY/2".toList =
      ["XX/1".toList, "YY/2".toList] ∧
    ∃ buf1 comments front back,
      process_comment
        ⟨["[t]".toList, "CR=BSBHDR XX/1\ta note\tBSBHDR KNP/SK=2\tBSBHDR   YY/2".toList]⟩ =
        .ok (buf1, comments) ∧
      buf1.field "ADD2".toList = "YY/2".toList ∧
      emitted strtod_dec (0, 0)
        ⟨["[t]".toList, "CR=BSBHDR XX/1\ta note\tBSBHDR KNP/SK=2\tBSBHDR   YY/2".toList]⟩
        no_options = front ++ [dx_line (-2147483647) (-2147483647)] ++
          [[Tok.str "XX/1".toList], [Tok.str "YY/2".toList]] ++
          [[Tok.str "OST/1".toList]] ++ back := by
  have hc : convert_section strtod_dec (0, 0)
      ⟨["[t]".toList, "CR=BSBHDR XX/1\ta note\tBSBHDR KNP/SK=2\tBSBHDR   YY/2".toList]⟩
      no_options =
      .ok ⟨"t.hdr".toList, emitted strtod_dec (0, 0)
        ⟨["[t]".toList, "CR=BSBHDR XX/1\ta note\tBSBHDR KNP/SK=2\tBSBHDR   YY/2".toList]⟩
        no_options⟩ := by
    decide!
  have ha : add_commands "BSBHDR XX/1\ta note\tBSBHDR KNP/SK=2\tBSBHDR   YY/2".toList =
      ["XX/1".toList, "YY/2".toList] := by decide
  have hf : (input_buffer.mk ["[t]".toList,
      "CR=BSBHDR XX/1\ta note\tBSBHDR KNP/SK=2\tBSBHDR   YY/2".toList]).field "CR".toList =
      "BSBHDR XX/1\ta note\tBSBHDR KNP/SK=2\tBSBHDR   YY/2".toList := by decide
  refine ⟨ha, ?_⟩
  obtain ⟨buf1, comments, front, back, h1, h2, -, h4⟩ :=
    (add_commands_become_extra_lines strtod_dec (0, 0) _ no_options).2 _ hc
      (by decide) (by rw [hf]; unfold injects_no_add; decide)
  rw [hf, ha] at h2 h4
  have hdx : (input_buffer.mk ["[t]".toList,
      "CR=BSBHDR XX/1\ta note\tBSBHDR KNP/SK=2\tBSBHDR   YY/2".toList]).field_double
      strtod_dec "DX".toList 0 = -2147483647 := by decide!
  have hdy : (input_buffer.mk ["[t]".toList,
      "CR=BSBHDR XX/1\ta note\tBSBHDR KNP/SK=2\tBSBHDR   YY/2".toList]).field_double
      strtod_dec "DY".toList 0 = -2147483647 := by decide!
  rw [hdx, hdy] at h4
  exact ⟨buf1, comments, front, back, h1, h2 1 (by decide), h4⟩

/-! ## Termination (C21) -/

/-- A larger iteration bound does not change what the loop over `ADDn` yields. -/
theorem add_loop_bound (b : input_buffer) (n cnt m : Nat)
    (h : add_loop b n cnt ≠ .error .fuel) : add_loop b (n + m) cnt = add_loop b n cnt := by
  induction n generalizing cnt with
  | zero => exact absurd rfl h
  | succ n ih =>
    rw [show n + 1 + m = n + m + 1 by omega]
    unfold add_loop at h ⊢
    simp only at h ⊢
    split
    · rfl
    · rename_i hne
      rw [if_neg hne] at h
      have h2 : add_loop b n (cnt + 1) ≠ .error .fuel := by
        intro hc
        rw [hc] at h
        exact h rfl
      rw [ih (cnt + 1) h2]

/-- A larger iteration bound does not change what the loop over `Cn` yields. -/
theorem ref_loop_bound (strtod : Str → ℚ) (b : input_buffer) (n cnt m : Nat) (s : ref_state)
    (h : ref_loop strtod b n cnt s ≠ .error .fuel) :
    ref_loop strtod b (n + m) cnt s = ref_loop strtod b n cnt s := by
  induction n generalizing cnt s with
  | zero => exact absurd rfl h
  | succ n ih =>
    rw [show n + 1 + m = n + m + 1 by omega]
    unfold ref_loop at h ⊢
    simp only at h ⊢
    split
    · rfl
    · rename_i hne
      rw [if_neg hne] at h
      split
      · rfl
      · rfl
      · rename_i refx refy hx hy
        rw [hx, hy] at h
        simp only at h
        rw [ih _ _ (by
          intro hc
          rw [hc] at h
          exact h rfl)]

/-- A larger iteration bound does not change what the loop over `Bn` yields. -/
theorem ply_loop_bound (strtod : Str → ℚ) (b : input_buffer) (n cnt m : Nat)
    (h : ply_loop strtod b n cnt ≠ .error .fuel) :
    ply_loop strtod b (n + m) cnt = ply_loop strtod b n cnt := by
  induction n generalizing cnt with
  | zero => exact absurd rfl h
  | succ n ih =>
    rw [show n + 1 + m = n + m + 1 by omega]
    unfold ply_loop at h ⊢
    simp only at h ⊢
    split
    · rfl
    · rename_i hne
      rw [if_neg hne] at h
      have h2 : ply_loop strtod b n (cnt + 1) ≠ .error .fuel := by
        intro hc
        rw [hc] at h
        exact h rfl
      rw [ih (cnt + 1) h2]

/-- A larger iteration bound does not change what an injection loop yields. -/
theorem inject_loop_bound (tmp : input_buffer) (key : Str) (n t m : Nat) (buf : input_buffer)
    (h : inject_loop tmp key n t buf ≠ .error .fuel) :
    inject_loop tmp key (n + m) t buf = inject_loop tmp key n t buf := by
  induction n generalizing t buf with
  | zero => exact absurd rfl h
  | succ n ih =>
    rw [show n + 1 + m = n + m + 1 by omega]
    unfold inject_loop at h ⊢
    simp only at h ⊢
    split
    · rfl
    · rename_i hne
      rw [if_neg hne] at h
      exact ih _ _ h

/-- The loop over `Cn` writes one line for each of the fields `C1`, `C2`, ...
that it found present. -/
theorem ref_loop_count (strtod : Str → ℚ) (b : input_buffer) (n cnt : Nat) (s rs : ref_state)
    (refs : List (List Tok)) (h : ref_loop strtod b n cnt s = .ok (refs, rs)) :
    ∀ j : Nat, cnt ≤ j → j < cnt + refs.length →
      b.field ("C".toList ++ itoa (j : Int)) ≠ [] := by
  induction n generalizing cnt s refs with
  | zero => simp [ref_loop] at h
  | succ n ih =>
    unfold ref_loop at h
    simp only at h
    split at h
    · cases h
      intro j h1 h2
      simp at h2
      omega
    · rename_i hne
      split at h
      · cases h
      · cases h
      · split at h
        · cases h
        · rename_i rest s3 hrest
          cases h
          intro j h1 h2
          simp only [List.length_cons] at h2
          rcases Nat.eq_or_lt_of_le h1 with rfl | h3
          · simpa [List.isEmpty_iff] using hne
          · exact ih _ _ _ hrest j (by omega) (by omega)

theorem add_loop_length_le (b : input_buffer) (n : Nat) (adds : List (List Tok))
    (h : add_loop b n 1 = .ok adds) : adds.length ≤ b.count := by
  obtain ⟨k, hk1, -, hk3⟩ := add_loop_spec _ _ _ _ h
  rw [hk3]
  simp only [List.length_map, List.length_range]
  exact numbered_fields_bounded b "ADD".toList k (fun j h1 h2 => hk1 j h1 (by omega))

theorem ply_loop_length_le (strtod : Str → ℚ) (b : input_buffer) (n : Nat)
    (plys : List (List Tok)) (h : ply_loop strtod b n 1 = .ok plys) :
    plys.length ≤ b.count := by
  obtain ⟨k, hk1, -, hk3⟩ := ply_loop_spec _ _ _ _ _ h
  rw [hk3]
  simp only [List.length_map, List.length_range]
  exact numbered_fields_bounded b "B".toList k (fun j h1 h2 => hk1 j h1 (by omega))

theorem ref_loop_length_le (strtod : Str → ℚ) (b : input_buffer) (n : Nat) (s rs : ref_state)
    (refs : List (List Tok)) (h : ref_loop strtod b n 1 s = .ok (refs, rs)) :
    refs.length ≤ b.count :=
  numbered_fields_bounded b "C".toList refs.length
    (fun j h1 h2 => ref_loop_count _ _ _ _ _ _ _ h j h1 (by omega))

/-- The comment scan makes at most one pass per character of the comment field
plus one: with that bound or any larger one it yields the result of processing
the sub-lines, never the mark of an exhausted bound. -/
theorem cr_loop_ends (st : Str) (s : cr_state) (m : Nat) :
    cr_loop st (st.length + 1 + m) 0 s = cr_lines (sublines st) s ∧
    cr_loop st (st.length + 1 + m) 0 s ≠ .error .fuel := by
  have h := cr_loop_eq_lines st (st.length + 1 + m) 0 s (Nat.zero_le _) (by omega)
  simp only [List.drop_zero] at h
  rw [h]
  exact ⟨rfl, cr_lines_no_fuel _ _⟩

theorem count_drop_le (l : Str) (n : Nat) (c : Char) : (l.drop n).count c ≤ l.count c :=
  (List.drop_sublist n l).count_le c

/-- The values of the numbered fields `P1`, ..., `Pm` that are all present hold
together no more text lines than the buffer. -/
theorem numbered_fields_text_lines (b : input_buffer) (P : Str) (m : Nat)
    (h : ∀ j : Nat, 1 ≤ j → j ≤ m → b.field (P ++ itoa (j : Int)) ≠ []) :
    ((List.range m).map
      (fun j => (b.field (P ++ itoa ((1 + j : Nat) : Int))).count '\n' + 1)).sum ≤
      b.text_lines := by
  let f : Nat → Str := fun j => (first_match b.lines (P ++ itoa ((1 + j : Nat) : Int))).getD []
  have hf : ∀ j, j < m → f j ∈ b.lines ∧ (P ++ itoa ((1 + j : Nat) : Int) ++ ['=']) <+: f j ∧
      (b.field (P ++ itoa ((1 + j : Nat) : Int))).count '\n' ≤ (f j).count '\n' := by
    intro j hj
    have hne := h (1 + j) (by omega) (by omega)
    obtain ⟨l, h1, h2, h3⟩ := field_ne_nil_line b _ hne
    have : f j = l := by simp only [f, h1, Option.getD_some]
    rw [this]
    refine ⟨h2, h3, ?_⟩
    rw [field_eq_spec]
    unfold field_spec
    rw [h1]
    exact count_drop_le _ _ _
  have hnd : ((List.range m).map f).Nodup := by
    apply List.Nodup.map_on _ (List.nodup_range m)
    intro x hx y hy hxy
    have h1 := (hf x (List.mem_range.mp hx)).2.1
    have h2 := (hf y (List.mem_range.mp hy)).2.1
    rw [hxy] at h1
    have := numbered_key_unique P (f y) _ _ h1 h2
    omega
  have hsub : (List.range m).map f ⊆ b.lines := by
    intro l hl
    obtain ⟨j, hj, rfl⟩ := List.mem_map.mp hl
    exact (hf j (List.mem_range.mp hj)).1
  obtain ⟨l1, hp, hs⟩ := List.subperm_of_subset hnd hsub
  have h1 : ((List.range m).map
      (fun j => (b.field (P ++ itoa ((1 + j : Nat) : Int))).count '\n' + 1)).sum ≤
      ((List.range m).map (fun j => (f j).count '\n' + 1)).sum := by
    apply List.sum_le_sum
    intro j hj
    have := (hf j (List.mem_range.mp hj)).2.2
    omega
  have h2 : ((List.range m).map (fun j => (f j).count '\n' + 1)).sum =
      (l1.map (fun l => l.count '\n' + 1)).sum := by
    have := (hp.map (fun l : Str => l.count '\n' + 1)).sum_eq
    rw [this, List.map_map]
    rfl
  have h3 : (l1.map (fun l => l.count '\n' + 1)).sum ≤ b.text_lines := by
    unfold input_buffer.text_lines
    exact (hs.map (fun l : Str => l.count '\n' + 1)).sum_le_sum (fun _ _ => Nat.zero_le _)
  omega

theorem add_loop_text_lines (b : input_buffer) (n : Nat) (adds : List (List Tok))
    (h : add_loop b n 1 = .ok adds) : text_lines_written adds ≤ b.text_lines := by
  obtain ⟨k, hk1, -, hk3⟩ := add_loop_spec _ _ _ _ h
  have := numbered_fields_text_lines b "ADD".toList k (fun j h1 h2 => hk1 j h1 (by omega))
  rw [hk3]
  unfold text_lines_written
  rw [List.map_map]
  simpa [Function.comp_def, Tok.feeds] using this

theorem count_le_text_lines (b : input_buffer) : b.count ≤ b.text_lines := by
  unfold input_buffer.count input_buffer.text_lines
  induction b.lines with
  | nil => simp
  | cons l ls ih =>
    simp only [List.length_cons, List.map_cons, List.sum_cons]
    omega

theorem text_lines_written_eq_length (ls : List (List Tok))
    (h : ∀ l ∈ ls, (l.map Tok.feeds).sum = 0) : text_lines_written ls = ls.length := by
  unfold text_lines_written
  induction ls with
  | nil => rfl
  | cons l ls ih =>
    simp only [List.map_cons, List.sum_cons, List.length_cons]
    rw [ih (fun x hx => h x (List.mem_cons_of_mem _ hx)), h l (List.mem_cons_self _ _)]
    omega

theorem ref_loop_feeds (strtod : Str → ℚ) (b : input_buffer) (n cnt : Nat) (s rs : ref_state)
    (refs : List (List Tok)) (h : ref_loop strtod b n cnt s = .ok (refs, rs)) :
    ∀ l ∈ refs, (l.map Tok.feeds).sum = 0 := by
  induction n generalizing cnt s refs with
  | zero => simp [ref_loop] at h
  | succ n ih =>
    unfold ref_loop at h
    simp only at h
    split at h
    · cases h
      simp
    · split at h
      · cases h
      · cases h
      · split at h
        · cases h
        · rename_i rest s3 hrest
          cases h
          intro l hl
          rcases List.mem_cons.mp hl with rfl | hl
          · rfl
          · exact ih _ _ _ hrest l hl

theorem ply_loop_feeds (strtod : Str → ℚ) (b : input_buffer) (n cnt : Nat)
    (plys : List (List Tok)) (h : ply_loop strtod b n cnt = .ok plys) :
    ∀ l ∈ plys, (l.map Tok.feeds).sum = 0 := by
  induction n generalizing cnt plys with
  | zero => simp [ply_loop] at h
  | succ n ih =>
    unfold ply_loop at h
    simp only at h
    split at h
    · cases h
      simp
    · split at h
      · cases h
      · rename_i rest hrest
        cases h
        intro l hl
        rcases List.mem_cons.mp hl with rfl | hl
        · rfl
        · exact ih _ _ hrest l hl

theorem add_loop_returns (b : input_buffer) (n cnt : Nat)
    (h : add_loop b n cnt ≠ .error .fuel) : ∃ adds, add_loop b n cnt = .ok adds := by
  induction n generalizing cnt with
  | zero => exact absurd rfl h
  | succ n ih =>
    unfold add_loop at h ⊢
    simp only at h ⊢
    split
    · exact ⟨_, rfl⟩
    · rename_i hne
      rw [if_neg hne] at h
      have h2 : add_loop b n (cnt + 1) ≠ .error .fuel := by
        intro hc
        rw [hc] at h
        exact h rfl
      obtain ⟨rest, hr⟩ := ih _ h2
      rw [hr]
      exact ⟨_, rfl⟩

theorem ply_loop_returns (strtod : Str → ℚ) (b : input_buffer) (n cnt : Nat)
    (h : ply_loop strtod b n cnt ≠ .error .fuel) : ∃ plys, ply_loop strtod b n cnt = .ok plys := by
  induction n generalizing cnt with
  | zero => exact absurd rfl h
  | succ n ih =>
    unfold ply_loop at h ⊢
    simp only at h ⊢
    split
    · exact ⟨_, rfl⟩
    · rename_i hne
      rw [if_neg hne] at h
      have h2 : ply_loop strtod b n (cnt + 1) ≠ .error .fuel := by
        intro hc
        rw [hc] at h
        exact h rfl
      obtain ⟨rest, hr⟩ := ih _ h2
      rw [hr]
      exact ⟨_, rfl⟩

/-- C21: `convert_section` terminates on every record buffer.  No loop of the
conversion is ever cut off by its iteration bound, and a larger bound (`m` more
iterations) changes nothing: the comment scan over the field `st` stops within
`st.length + 1` passes, and its body never runs out of steps; an injection loop
over the field `key` of the scratch buffer stops within two passes more than
the field has characters; each of the loops over `ADDn`, `Cn` and `Bn` stops
within one pass more than the buffer has lines, at the first absent field, and
writes no more lines than the buffer holds, counted as lines ended by `endl`
and also as text lines (the value of an `ADDn` field is written with the line
feeds it holds).  The buffer is the one the loops read: in every file that is
written, the record after the comment commands. -/
theorem convert_section_terminates (strtod : Str → ℚ) (g : Int × Int) (buf : input_buffer)
    (opt : command_line_info) (m : Nat) :
    convert_section strtod g buf opt ≠ .error .fuel ∧
    (∀ (st : Str) (s : cr_state),
      cr_loop st (st.length + 1) 0 s ≠ .error .fuel ∧
      cr_loop st (st.length + 1 + m) 0 s = cr_loop st (st.length + 1) 0 s) ∧
    (∀ (cline : Str) (s : cr_state), cr_line cline s ≠ .error .fuel) ∧
    (∀ (tmp : input_buffer) (key : Str) (b : input_buffer),
      ∃ b1, inject_loop tmp key ((tmp.field key).length + 2) 0 b = .ok b1 ∧
        inject_loop tmp key ((tmp.field key).length + 2 + m) 0 b = .ok b1) ∧
    (∀ b : input_buffer,
      ∃ adds, add_loop b (b.count + 1) 1 = .ok adds ∧
        add_loop b (b.count + 1 + m) 1 = .ok adds ∧
        adds.length ≤ b.count ∧ text_lines_written adds ≤ b.text_lines) ∧
    (∀ (b : input_buffer) (s : ref_state),
      ref_loop strtod b (b.count + 1) 1 s ≠ .error .fuel ∧
      ref_loop strtod b (b.count + 1 + m) 1 s = ref_loop strtod b (b.count + 1) 1 s ∧
      ∀ refs rs, ref_loop strtod b (b.count + 1) 1 s = .ok (refs, rs) →
        refs.length ≤ b.count ∧ text_lines_written refs ≤ b.text_lines) ∧
    (∀ b : input_buffer,
      ∃ plys, ply_loop strtod b (b.count + 1) 1 = .ok plys ∧
        ply_loop strtod b (b.count + 1 + m) 1 = .ok plys ∧
        plys.length ≤ b.count ∧ text_lines_written plys ≤ b.text_lines) ∧
    (∀ out, convert_section strtod g buf opt = .ok out →
      ∃ buf1 comments adds refs rs plys front,
        process_comment buf = .ok (buf1, comments) ∧
        add_loop buf1 (buf1.count + 1) 1 = .ok adds ∧
        ref_loop strtod buf1 (buf1.count + 1) 1 (ref_init g) = .ok (refs, rs) ∧
        ply_loop strtod buf1 (buf1.count + 1) 1 = .ok plys ∧
        out.lines = front ++ adds ++ [[Tok.str "OST/1".toList]] ++ refs ++ [cph_line rs] ++
          plys ++ [dtm_line strtod buf1]) := by
  refine ⟨convert_section_no_fuel strtod g buf opt, ?_, cr_line_no_fuel, ?_, ?_, ?_, ?_, ?_⟩
  · intro st s
    have h0 := cr_loop_ends st s 0
    have h1 := cr_loop_ends st s m
    rw [Nat.add_zero] at h0
    exact ⟨h0.2, h1.1.trans h0.1.symm⟩
  · intro tmp key b
    obtain ⟨b1, hb⟩ := inject_loop_start_ok tmp key b
    refine ⟨b1, hb, ?_⟩
    rw [inject_loop_bound _ _ _ _ _ _ (by rw [hb]; exact fun hc => nomatch hc), hb]
  · intro b
    obtain ⟨adds, ha⟩ := add_loop_returns b _ _ (add_loop_no_fuel b)
    refine ⟨adds, ha, ?_, add_loop_length_le b _ adds ha, add_loop_text_lines b _ adds ha⟩
    rw [add_loop_bound _ _ _ _ (add_loop_no_fuel b), ha]
  · intro b s
    refine ⟨ref_loop_no_fuel strtod b s, ref_loop_bound _ _ _ _ _ _ (ref_loop_no_fuel strtod b s),
      ?_⟩
    intro refs rs h
    have hl := ref_loop_length_le strtod b _ s rs refs h
    refine ⟨hl, ?_⟩
    rw [text_lines_written_eq_length refs (ref_loop_feeds _ _ _ _ _ _ _ h)]
    exact hl.trans (count_le_text_lines b)
  · intro b
    obtain ⟨plys, hp⟩ := ply_loop_returns strtod b _ _ (ply_loop_no_fuel strtod b)
    have hl := ply_loop_length_le strtod b _ plys hp
    refine ⟨plys, hp, ?_, hl, ?_⟩
    · rw [ply_loop_bound _ _ _ _ _ (ply_loop_no_fuel strtod b), hp]
    · rw [text_lines_written_eq_length plys (ply_loop_feeds _ _ _ _ _ hp)]
      exact hl.trans (count_le_text_lines b)
  · intro out h
    obtain ⟨mc, sc, du, p, i, buf1, comments, adds, refs, rs, plys, -, -, -, -, -, hpc, hadd,
      href, hply, -, hl⟩ := convert_section_ok strtod g buf opt out h
    exact ⟨buf1, comments, adds, refs, rs, plys, _, hpc, hadd, href, hply, hl⟩

/-- C21, an instance: for `commented_record` the conversion returns a file; the
buffer after the comment commands has 9 lines that hold 12 text lines, and the
three loops write 1, 2 and 1 lines, the `ADD1` line taking two text lines. -/
theorem convert_section_terminates_witness :
    ∃ out comments adds refs rs plys,
      convert_section strtod_dec (0, 0) commented_record no_options = .ok out ∧
      process_comment commented_record = .ok (commented_record_after, comments) ∧
      commented_record_after.count = 9 ∧ commented_record_after.text_lines = 12 ∧
      add_loop commented_record_after (commented_record_after.count + 1) 1 = .ok adds ∧
      ref_loop strtod_dec commented_record_after (commented_record_after.count + 1) 1
        (ref_init (0, 0)) = .ok (refs, rs) ∧
      ply_loop strtod_dec commented_record_after (commented_record_after.count + 1) 1 =
        .ok plys ∧
      adds = [[Tok.str "x\ny".toList]] ∧ text_lines_written adds = 2 ∧
      refs.length = 2 ∧ plys.length = 1 ∧
      refs.length ≤ commented_record_after.count ∧
      text_lines_written refs ≤ commented_record_after.text_lines := by
  have hc : convert_section strtod_dec (0, 0) commented_record no_options =
      .ok ⟨"t.hdr".toList, emitted strtod_dec (0, 0) commented_record no_options⟩ := by
    decide!
  have hp : process_comment commented_record =
      .ok (commented_record_after, [[Tok.str "! ".toList, Tok.str "note".toList]]) := by
    decide!
  have ha : add_loop commented_record_after (commented_record_after.count + 1) 1 =
      .ok [[Tok.str "x\ny".toList]] := by
    decide!
  have hr : (ref_loop strtod_dec commented_record_after (commented_record_after.count + 1) 1
      (ref_init (0, 0))).map (fun p => p.1.length) = .ok 2 := by
    decide!
  have hy : (ply_loop strtod_dec commented_record_after (commented_record_after.count + 1)
      1).map List.length = .ok 1 := by
    decide!
  obtain ⟨buf1, comments, adds, refs, rs, plys, front, h1, h2, h3, h4, -⟩ :=
    (convert_section_terminates strtod_dec (0, 0) _ no_options 0).2.2.2.2.2.2.2 _ hc
  obtain ⟨hb, hcm⟩ := Prod.mk.inj (Except.ok.inj (h1.symm.trans hp))
  subst hb
  subst hcm
  have hb := ((convert_section_terminates strtod_dec (0, 0) commented_record no_options
    0).2.2.2.2.2.1 _ (ref_init (0, 0))).2.2 refs rs h3
  rw [h3] at hr
  rw [h4] at hy
  have ha2 : adds = [[Tok.str "x\ny".toList]] := Except.ok.inj (h2.symm.trans ha)
  refine ⟨_, _, adds, refs, rs, plys, hc, hp, by decide, by decide, h2, h3, h4, ha2, ?_,
    Except.ok.inj hr, Except.ok.inj hy, hb.1, hb.2⟩
  rw [ha2]
  decide

end Mc2bsbh
